import Mathlib

/-!
Verification development for the dex-arbitrage-bot repository.

We give a shallow embedding of the core components — the arbitrage
detector (`src/arbitrage_detection.py`), the data manager
(`src/data_management.py`), the GraphQL response parsers
(`src/graphql/parsers.py`) and the GraphQL client
(`src/graphql/client.py`) — and prove or refute the specified
properties about them.

Python floats are modelled as rationals (`ℚ`), timestamps as
integers / rationals, and Python dicts as insertion-ordered
association lists.  Fallible operations are modelled with explicit
fault parameters or `Except`-shaped bodies, mirroring the Python
`try`/`except` structure.
-/

namespace DexBot

/-- A latest-price record, i.e. the JSON value
`{"price": .., "liquidity": .., "timestamp": ..}` that
`DataManager.save_price` stores under `price:{exchange}:{pair}`. -/
structure PriceData where
  price : ℚ
  liquidity : ℚ
  timestamp : ℤ
deriving DecidableEq, Repr

/-- An arbitrage-opportunity record as built by
`ArbitrageDetector._detect_arbitrage` (the dict appended to
`opportunities`). -/
structure Opportunity where
  pair : String
  buy_exchange : String
  sell_exchange : String
  buy_price : ℚ
  sell_price : ℚ
  price_diff_percent : ℚ
  fees_percent : ℚ
  slippage_percent : ℚ
  net_profit_percent : ℚ
  timestamp : ℤ
deriving DecidableEq, Repr

/-- The part of `AppConfig` the detector reads: the DEX map (venue id
to `fee_percent`), `slippage_tolerance`, `arbitrage_threshold` and
`notification_cooldown`. -/
structure DetectorConfig where
  dexes : List (String × ℚ)
  slippage_tolerance : ℚ
  arbitrage_threshold : ℚ
  notification_cooldown : ℚ

/-- The fixed CEX fee table inside `ArbitrageDetector._get_exchange_fee`. -/
def cex_fees : List (String × ℚ) :=
  [("bitbank", 12/100), ("bitflyer", 15/100), ("coincheck", 2/10),
   ("zaif", 2/10), ("bittrade", 15/100)]

/-- `ArbitrageDetector._get_exchange_fee`: DEX fee if the venue is a
configured DEX, otherwise the CEX table, defaulting to 0.2%. -/
def get_exchange_fee (config : DetectorConfig) (exchange : String) : ℚ :=
  match config.dexes.lookup exchange with
  | some fee => fee
  | none => (cex_fees.lookup exchange).getD (2/10)

/-- Body of the inner double loop of `ArbitrageDetector._detect_arbitrage`
for one ordered pair of venues `(exchange1, exchange2)` taken from the
`prices` dict (value `none` models a falsy price dict, skipped by
`if not prices[exchange1] or not prices[exchange2]`). -/
def detect_pair_body (config : DetectorConfig) (pair_str : String) (now : ℤ)
    (x y : String × Option PriceData) : List Opportunity :=
  match x.2, y.2 with
  | some p1, some p2 =>
    if p1.price ≤ 0 ∨ p2.price ≤ 0 then []
    else
      let price_diff_percent1 := (p2.price - p1.price) / p1.price * 100
      let price_diff_percent2 := (p1.price - p2.price) / p2.price * 100
      let fee1 := get_exchange_fee config x.1
      let fee2 := get_exchange_fee config y.1
      let slippage := config.slippage_tolerance
      let total_cost1 := fee1 + fee2 + slippage
      let total_cost2 := fee1 + fee2 + slippage
      (if price_diff_percent1 > total_cost1 + config.arbitrage_threshold then
        [{ pair := pair_str, buy_exchange := x.1, sell_exchange := y.1,
           buy_price := p1.price, sell_price := p2.price,
           price_diff_percent := price_diff_percent1,
           fees_percent := fee1 + fee2, slippage_percent := slippage,
           net_profit_percent := price_diff_percent1 - total_cost1,
           timestamp := now }]
      else []) ++
      (if price_diff_percent2 > total_cost2 + config.arbitrage_threshold then
        [{ pair := pair_str, buy_exchange := y.1, sell_exchange := x.1,
           buy_price := p2.price, sell_price := p1.price,
           price_diff_percent := price_diff_percent2,
           fees_percent := fee1 + fee2, slippage_percent := slippage,
           net_profit_percent := price_diff_percent2 - total_cost2,
           timestamp := now }]
      else [])
  | _, _ => []

/-- `ArbitrageDetector._detect_arbitrage`: the `prices` dict is an
insertion-ordered association list; the nested loops
`for i in range(len(exchanges)); for j in range(i+1, ...)` visit every
index pair `i < j` in order. `now` models `int(time.time())`. -/
def detect_arbitrage (config : DetectorConfig) (pair_str : String) (now : ℤ) :
    List (String × Option PriceData) → List Opportunity
  | [] => []
  | x :: rest =>
      (rest.map (detect_pair_body config pair_str now x)).flatten ++
        detect_arbitrage config pair_str now rest

/-- The condition of claim C1, stated from the spec's words: the
opportunity `o` is emitted for the ordered venue slot pair `(x, y)`
(`x` before `y` in the price table) iff both prices are present and
strictly positive, and in the reported direction the percentage price
difference exceeds `fee(buy) + fee(sell) + slippage + threshold`, the
net profit being that difference minus `fee + fee + slippage`. -/
def claim_emits (config : DetectorConfig) (pair_str : String) (now : ℤ)
    (x y : String × Option PriceData) (o : Opportunity) : Prop :=
  ∃ px py, x.2 = some px ∧ y.2 = some py ∧ 0 < px.price ∧ 0 < py.price ∧
    (let cost := get_exchange_fee config x.1 + get_exchange_fee config y.1 +
      config.slippage_tolerance
    (let diff := (py.price - px.price) / px.price * 100
     diff > cost + config.arbitrage_threshold ∧
      o = { pair := pair_str, buy_exchange := x.1, sell_exchange := y.1,
            buy_price := px.price, sell_price := py.price,
            price_diff_percent := diff,
            fees_percent := get_exchange_fee config x.1 + get_exchange_fee config y.1,
            slippage_percent := config.slippage_tolerance,
            net_profit_percent := diff - cost, timestamp := now }) ∨
    (let diff := (px.price - py.price) / py.price * 100
     diff > cost + config.arbitrage_threshold ∧
      o = { pair := pair_str, buy_exchange := y.1, sell_exchange := x.1,
            buy_price := py.price, sell_price := px.price,
            price_diff_percent := diff,
            fees_percent := get_exchange_fee config x.1 + get_exchange_fee config y.1,
            slippage_percent := config.slippage_tolerance,
            net_profit_percent := diff - cost, timestamp := now }))

/-- Configuration of the spec's boundary example: venues `uniswap` and
`sushiswap` with 0.3% fee each, slippage tolerance 0.3%, arbitrage
threshold 0.5%. -/
def boundary_config : DetectorConfig :=
  { dexes := [("uniswap", 3/10), ("sushiswap", 3/10)],
    slippage_tolerance := 3/10, arbitrage_threshold := 1/2,
    notification_cooldown := 300 }

/-- Price table with prices 100 and 101 (boundary example, no opportunity). -/
def boundary_prices_101 : List (String × Option PriceData) :=
  [("uniswap", some ⟨100, 0, 0⟩), ("sushiswap", some ⟨101, 0, 0⟩)]

/-- Price table with prices 100 and 102 (boundary example, one opportunity). -/
def boundary_prices_102 : List (String × Option PriceData) :=
  [("uniswap", some ⟨100, 0, 0⟩), ("sushiswap", some ⟨102, 0, 0⟩)]

theorem mem_detect_pair_iff (c : DetectorConfig) (ps : String) (now : ℤ)
    (x y : String × Option PriceData) (o : Opportunity) :
    o ∈ detect_pair_body c ps now x y ↔ claim_emits c ps now x y o := by
  cases hx : x.2 with
  | none =>
    simp [detect_pair_body, claim_emits, hx]
  | some p1 =>
    cases hy : y.2 with
    | none => simp [detect_pair_body, claim_emits, hx, hy]
    | some p2 =>
      simp only [detect_pair_body, hx, hy, claim_emits, Option.some.injEq]
      by_cases hpos : p1.price ≤ 0 ∨ p2.price ≤ 0
      · simp only [if_pos hpos]
        simp only [List.not_mem_nil, false_iff]
        rintro ⟨px, py, hpx, hpy, h1, h2, -⟩
        subst hpx; subst hpy
        rcases hpos with h | h
        · exact absurd h1 (not_lt.mpr h)
        · exact absurd h2 (not_lt.mpr h)
      · simp only [if_neg hpos]
        push_neg at hpos
        constructor
        · intro hmem
          refine ⟨p1, p2, rfl, rfl, hpos.1, hpos.2, ?_⟩
          rcases List.mem_append.mp hmem with h | h
          · left
            split at h
            · rename_i hgt
              simp only [List.mem_singleton] at h
              exact ⟨hgt, h⟩
            · simp at h
          · right
            split at h
            · rename_i hgt
              simp only [List.mem_singleton] at h
              exact ⟨hgt, h⟩
            · simp at h
        · rintro ⟨px, py, hpx, hpy, h1, h2, hcase⟩
          obtain rfl : p1 = px := hpx
          obtain rfl : p2 = py := hpy
          rcases hcase with ⟨hgt, rfl⟩ | ⟨hgt, rfl⟩
          · exact List.mem_append.mpr (Or.inl (by simp [if_pos hgt]))
          · exact List.mem_append.mpr (Or.inr (by simp [if_pos hgt]))

theorem mem_detect_arbitrage_iff (c : DetectorConfig) (ps : String) (now : ℤ)
    (l : List (String × Option PriceData)) (o : Opportunity) :
    o ∈ detect_arbitrage c ps now l ↔
      ∃ i j, ∃ hi : i < l.length, ∃ hj : j < l.length, i < j ∧
        o ∈ detect_pair_body c ps now (l.get ⟨i, hi⟩) (l.get ⟨j, hj⟩) := by
  induction l with
  | nil => simp [detect_arbitrage]
  | cons x rest ih =>
    simp only [detect_arbitrage, List.mem_append, List.mem_flatten, List.mem_map, ih]
    constructor
    · rintro (⟨lst, ⟨y, hy, rfl⟩, hmem⟩ | ⟨i, j, hi, hj, hij, hmem⟩)
      · obtain ⟨⟨j, hj⟩, rfl⟩ := List.mem_iff_get.mp hy
        exact ⟨0, j + 1, by simp, by simpa using Nat.succ_lt_succ hj,
          Nat.succ_pos j, by simpa using hmem⟩
      · exact ⟨i + 1, j + 1, by simpa using Nat.succ_lt_succ hi,
          by simpa using Nat.succ_lt_succ hj, Nat.succ_lt_succ hij,
          by simpa using hmem⟩
    · rintro ⟨i, j, hi, hj, hij, hmem⟩
      match i, j with
      | 0, j + 1 =>
        left
        have hj' : j < rest.length := by simpa using hj
        refine ⟨detect_pair_body c ps now x (rest.get ⟨j, hj'⟩),
          ⟨rest.get ⟨j, hj'⟩, List.get_mem _ _ _, rfl⟩, ?_⟩
        simpa using hmem
      | i + 1, j + 1 =>
        right
        have hi' : i < rest.length := by simpa using hi
        have hj' : j < rest.length := by simpa using hj
        exact ⟨i, j, hi', hj', Nat.lt_of_succ_lt_succ hij, by simpa using hmem⟩

/-- C1: `_detect_arbitrage` returns exactly the opportunities described
by the spec: an opportunity is in the output iff it comes from two
distinct slots of the price table (unordered venue pair, both
directions evaluated independently) whose prices are both present and
strictly positive and whose percentage price difference exceeds
`fee + fee + slippage + threshold`, with
`net_profit_pct = diff_pct - (fee + fee + slippage)`; a venue pair with
a missing or non-positive price contributes no opportunity.  Moreover
on the spec's boundary example (prices 100 and 101, fees 0.3% each,
slippage 0.3%, threshold 0.5%) nothing is reported, while raising the
second price to 102 yields exactly the single opportunity buying at the
first venue and selling at the second. -/
theorem C1_detect_arbitrage_exact :
    (∀ (c : DetectorConfig) (ps : String) (now : ℤ)
      (l : List (String × Option PriceData)) (o : Opportunity),
      o ∈ detect_arbitrage c ps now l ↔
        ∃ i j, ∃ hi : i < l.length, ∃ hj : j < l.length, i < j ∧
          claim_emits c ps now (l.get ⟨i, hi⟩) (l.get ⟨j, hj⟩) o) ∧
    detect_arbitrage boundary_config "WETH/USDC" 7 boundary_prices_101 = [] ∧
    detect_arbitrage boundary_config "WETH/USDC" 7 boundary_prices_102 =
      [{ pair := "WETH/USDC", buy_exchange := "uniswap", sell_exchange := "sushiswap",
         buy_price := 100, sell_price := 102, price_diff_percent := 2,
         fees_percent := 6/10, slippage_percent := 3/10,
         net_profit_percent := 11/10, timestamp := 7 }] := by
  refine ⟨fun c ps now l o => ?_, ?_, ?_⟩
  · rw [mem_detect_arbitrage_iff]
    exact exists₂_congr fun i j =>
      exists_congr fun hi => exists_congr fun hj =>
        and_congr_right fun _ => mem_detect_pair_iff c ps now _ _ o
  · simp [detect_arbitrage, detect_pair_body, get_exchange_fee, cex_fees,
      boundary_config, boundary_prices_101, List.lookup]
    norm_num
  · simp [detect_arbitrage, detect_pair_body, get_exchange_fee, cex_fees,
      boundary_config, boundary_prices_102, List.lookup]
    norm_num

/-- `opportunity_key = f"{buy_exchange}_{sell_exchange}_{pair_str}"`
(line 46 of `arbitrage_detection.py`). -/
def opportunity_key (pair_str : String) (o : Opportunity) : String :=
  o.buy_exchange ++ "_" ++ o.sell_exchange ++ "_" ++ pair_str

/-- Python dict assignment `d[k] = v` on an insertion-ordered
association list: update in place if present, else append. -/
def dictSet {α : Type} (k : String) (v : α) : List (String × α) → List (String × α)
  | [] => [(k, v)]
  | (k', v') :: rest => if k' = k then (k, v) :: rest else (k', v') :: dictSet k v rest

/-- The outcome of processing one opportunity in `start_detection`
(lines 44-59): the updated `notification_history`, whether
`_notify_arbitrage` was invoked (not cooldown-suppressed), and whether
`save_arbitrage_opportunity` was reached inside `_notify_arbitrage`. -/
structure StepResult where
  history : List (String × ℚ)
  notified : Bool
  persisted : Bool
deriving DecidableEq, Repr

/-- One iteration of the `for opportunity in arbitrage_opportunities`
loop in `ArbitrageDetector.start_detection` (lines 44-59).
`send_raises` models `notifier.send_notification` raising inside
`_notify_arbitrage`'s `try` block: the exception is caught there, so
the history update still happens, but the persistence call
(`save_arbitrage_opportunity`, which itself never raises) is skipped.
A cooldown hit executes `continue`, skipping `_notify_arbitrage`
entirely — including its persistence call. -/
def detection_step (cooldown : ℚ) (send_raises : Bool)
    (history : List (String × ℚ)) (pair_str : String) (o : Opportunity)
    (current_time : ℚ) : StepResult :=
  let key := opportunity_key pair_str o
  match history.lookup key with
  | some last_notified =>
      if current_time - last_notified < cooldown then
        { history := history, notified := false, persisted := false }
      else
        { history := dictSet key current_time history, notified := true,
          persisted := !send_raises }
  | none =>
      { history := dictSet key current_time history, notified := true,
        persisted := !send_raises }

/-- Processing a sequence of detected opportunities (each tagged with
its `time.time()` value) through `start_detection`'s per-opportunity
loop, threading `notification_history`; yields each step's
`(notified, persisted)` flags. -/
def detection_trace (cooldown : ℚ) (send_raises : Bool) (pair_str : String)
    (history : List (String × ℚ)) : List (Opportunity × ℚ) → List (Bool × Bool)
  | [] => []
  | (o, t) :: rest =>
      let r := detection_step cooldown send_raises history pair_str o t
      (r.notified, r.persisted) ::
        detection_trace cooldown send_raises pair_str r.history rest

theorem lookup_dictSet_self {α : Type} (k : String) (v : α) (l : List (String × α)) :
    (dictSet k v l).lookup k = some v := by
  induction l with
  | nil => simp [dictSet, List.lookup]
  | cons x rest ih =>
    obtain ⟨k', v'⟩ := x
    by_cases h : k' = k
    · simp [dictSet, if_pos h, List.lookup]
    · have hb : (k == k') = false := beq_eq_false_iff_ne.mpr fun hh => h hh.symm
      simp [dictSet, if_neg h, List.lookup, hb, ih]

theorem lookup_dictSet_ne {α : Type} (k k' : String) (hk : k' ≠ k) (v : α)
    (l : List (String × α)) :
    (dictSet k v l).lookup k' = l.lookup k' := by
  have hbeq : (k' == k) = false := beq_eq_false_iff_ne.mpr hk
  induction l with
  | nil => simp [dictSet, List.lookup, hbeq]
  | cons x rest ih =>
    obtain ⟨k₀, v₀⟩ := x
    by_cases h : k₀ = k
    · subst h
      simp [dictSet, List.lookup, hbeq]
    · by_cases h' : k' = k₀
      · simp [dictSet, if_neg h, List.lookup, h']
      · have hb : (k' == k₀) = false := beq_eq_false_iff_ne.mpr h'
        simp [dictSet, if_neg h, List.lookup, hb, ih]

theorem detection_step_suppressed (c : ℚ) (sr : Bool) (hist : List (String × ℚ))
    (ps : String) (o : Opportunity) (t last : ℚ)
    (h : hist.lookup (opportunity_key ps o) = some last) (hlt : t - last < c) :
    detection_step c sr hist ps o t =
      { history := hist, notified := false, persisted := false } := by
  simp [detection_step, h, hlt]

theorem detection_step_go (c : ℚ) (sr : Bool) (hist : List (String × ℚ))
    (ps : String) (o : Opportunity) (t : ℚ)
    (h : ∀ last, hist.lookup (opportunity_key ps o) = some last → c ≤ t - last) :
    detection_step c sr hist ps o t =
      { history := dictSet (opportunity_key ps o) t hist, notified := true,
        persisted := !sr } := by
  cases hl : hist.lookup (opportunity_key ps o) with
  | none => simp [detection_step, hl]
  | some last =>
    have := h last hl
    simp [detection_step, hl, not_lt.mpr this]

theorem detection_step_suppressed_iff (c : ℚ) (sr : Bool) (hist : List (String × ℚ))
    (ps : String) (o : Opportunity) (t : ℚ) :
    (detection_step c sr hist ps o t).notified = false ↔
      ∃ last, hist.lookup (opportunity_key ps o) = some last ∧ t - last < c := by
  cases hl : hist.lookup (opportunity_key ps o) with
  | none => simp [detection_step, hl]
  | some last =>
    by_cases hlt : t - last < c <;> simp [detection_step, hl, hlt]

theorem gap_after_entry (c : ℚ) (hc : 0 ≤ c) (sr : Bool) (ps : String) (k : String) :
    ∀ (events : List (Opportunity × ℚ)) (hist : List (String × ℚ)) (v : ℚ),
      hist.lookup k = some v →
      ∀ (j : ℕ) (o : Opportunity) (t : ℚ) (flag prs : Bool),
        events[j]? = some (o, t) →
        opportunity_key ps o = k →
        (detection_trace c sr ps hist events)[j]? = some (flag, prs) →
        flag = true → v + c ≤ t := by
  intro events
  induction events with
  | nil =>
    intro hist v hv j o t flag prs hj
    simp at hj
  | cons e rest ih =>
    obtain ⟨o₀, t₀⟩ := e
    intro hist v hv j o t flag prs hj hkey htr hflag
    subst hflag
    match j with
    | 0 =>
      simp only [List.getElem?_cons_zero, Option.some.injEq, Prod.mk.injEq] at hj
      obtain ⟨rfl, rfl⟩ := hj
      simp only [detection_trace, List.getElem?_cons_zero, Option.some.injEq,
        Prod.mk.injEq] at htr
      by_cases hlt : t₀ - v < c
      · rw [detection_step_suppressed c sr hist ps o₀ t₀ v (by rw [hkey]; exact hv) hlt] at htr
        simp at htr
      · have := not_lt.mp hlt
        linarith
    | j + 1 =>
      simp only [List.getElem?_cons_succ] at hj
      simp only [detection_trace, List.getElem?_cons_succ] at htr
      by_cases hsup : (detection_step c sr hist ps o₀ t₀).notified = false
      · obtain ⟨last, hl, hlt⟩ :=
          (detection_step_suppressed_iff c sr hist ps o₀ t₀).mp hsup
        rw [detection_step_suppressed c sr hist ps o₀ t₀ last hl hlt] at htr
        exact ih hist v hv j o t true prs hj hkey htr rfl
      · have hgo : ∀ last, hist.lookup (opportunity_key ps o₀) = some last →
            c ≤ t₀ - last := by
          intro last hl
          by_contra hno
          exact hsup ((detection_step_suppressed_iff c sr hist ps o₀ t₀).mpr
            ⟨last, hl, lt_of_not_le hno⟩)
        rw [detection_step_go c sr hist ps o₀ t₀ hgo] at htr
        by_cases heq : opportunity_key ps o₀ = k
        · have hlook : (dictSet (opportunity_key ps o₀) t₀ hist).lookup k = some t₀ := by
            rw [heq]; exact lookup_dictSet_self k t₀ hist
          have hrec := ih _ t₀ hlook j o t true prs hj hkey htr rfl
          have hcv := hgo v (by rw [heq]; exact hv)
          linarith
        · have hlook : (dictSet (opportunity_key ps o₀) t₀ hist).lookup k = some v := by
            rw [lookup_dictSet_ne (opportunity_key ps o₀) k (fun hh => heq hh.symm) t₀ hist]
            exact hv
          exact ih _ v hlook j o t true prs hj hkey htr rfl

theorem detection_no_double_notify (c : ℚ) (hc : 0 ≤ c) (sr : Bool) (ps : String) :
    ∀ (events : List (Opportunity × ℚ)) (hist : List (String × ℚ))
      (i j : ℕ) (oi oj : Opportunity) (ti tj : ℚ) (pi pj : Bool),
      i < j →
      events[i]? = some (oi, ti) → events[j]? = some (oj, tj) →
      opportunity_key ps oi = opportunity_key ps oj →
      (detection_trace c sr ps hist events)[i]? = some (true, pi) →
      (detection_trace c sr ps hist events)[j]? = some (true, pj) →
      c ≤ tj - ti := by
  intro events
  induction events with
  | nil =>
    intro hist i j oi oj ti tj pi pj hij hi
    simp at hi
  | cons e rest ih =>
    obtain ⟨o₀, t₀⟩ := e
    intro hist i j oi oj ti tj pi pj hij hi hj hkey htri htrj
    match i, j with
    | 0, j + 1 =>
      simp only [List.getElem?_cons_zero, Option.some.injEq, Prod.mk.injEq] at hi
      simp only [List.getElem?_cons_succ] at hj
      obtain ⟨rfl, rfl⟩ := hi
      simp only [detection_trace, List.getElem?_cons_zero, List.getElem?_cons_succ,
        Option.some.injEq, Prod.mk.injEq] at htri htrj
      have hnot : (detection_step c sr hist ps o₀ t₀).notified = true := htri.1
      have hgo : ∀ last, hist.lookup (opportunity_key ps o₀) = some last →
          c ≤ t₀ - last := by
        intro last hl
        by_contra hno
        have := (detection_step_suppressed_iff c sr hist ps o₀ t₀).mpr
          ⟨last, hl, lt_of_not_le hno⟩
        rw [hnot] at this
        exact absurd this (by simp)
      rw [detection_step_go c sr hist ps o₀ t₀ hgo] at htrj
      have hlook : (dictSet (opportunity_key ps o₀) t₀ hist).lookup
          (opportunity_key ps o₀) = some t₀ := lookup_dictSet_self _ t₀ hist
      have := gap_after_entry c hc sr ps (opportunity_key ps o₀) rest _ t₀ hlook
        j oj tj true pj hj hkey.symm htrj rfl
      linarith
    | i + 1, j + 1 =>
      simp only [List.getElem?_cons_succ] at hi hj
      simp only [detection_trace, List.getElem?_cons_succ] at htri htrj
      exact ih _ i j oi oj ti tj pi pj (Nat.lt_of_succ_lt_succ hij) hi hj hkey htri htrj

/-- The single opportunity of the boundary example, used as a concrete
detected opportunity in cooldown traces. -/
def sample_opportunity : Opportunity :=
  { pair := "WETH/USDC", buy_exchange := "uniswap", sell_exchange := "sushiswap",
    buy_price := 100, sell_price := 102, price_diff_percent := 2,
    fees_percent := 6/10, slippage_percent := 3/10, net_profit_percent := 11/10,
    timestamp := 7 }

/-- The same opportunity detected at times 0 and 10 seconds. -/
def c2_events : List (Opportunity × ℚ) :=
  [(sample_opportunity, 0), (sample_opportunity, 10)]

/-- C2 counterexample: with a 300-second cooldown, of two identical
opportunities detected 10 seconds apart the second is NOT written to
the durable log — the cooldown `continue` skips `_notify_arbitrage`,
which is the only place `save_arbitrage_opportunity` is called.  The
claim says the second is persisted; here its persistence flag is not
`true`. -/
theorem C2_counterexample :
    ¬ ((detection_trace 300 false "WETH/USDC" [] c2_events)[1]?.map Prod.snd
        = some true) := by
  norm_num [detection_trace, detection_step, dictSet, List.lookup, c2_events]

/-- C2 (amended): persistence is coupled to notification, not
unconditional: a cooldown-suppressed opportunity is neither sent nor
persisted, while a non-suppressed one is persisted whenever the
notification call does not raise.  Concretely, of two identical
opportunities detected 10 seconds apart under a 300-second cooldown,
the first is sent and persisted and the second is neither. -/
theorem C2_suppressed_not_persisted :
    (∀ (c : ℚ) (sr : Bool) (hist : List (String × ℚ)) (ps : String)
      (o : Opportunity) (t : ℚ),
      ((detection_step c sr hist ps o t).notified = false →
        (detection_step c sr hist ps o t).persisted = false) ∧
      ((detection_step c sr hist ps o t).notified = true →
        (detection_step c sr hist ps o t).persisted = !sr)) ∧
    detection_trace 300 false "WETH/USDC" [] c2_events =
      [(true, true), (false, false)] := by
  constructor
  · intro c sr hist ps o t
    constructor
    · intro hnot
      cases hl : hist.lookup (opportunity_key ps o) with
      | none =>
        rw [detection_step_go c sr hist ps o t (by intro last h; rw [hl] at h; cases h)]
          at hnot
        cases hnot
      | some last =>
        by_cases hlt : t - last < c
        · rw [detection_step_suppressed c sr hist ps o t last hl hlt]
        · rw [detection_step_go c sr hist ps o t (by
            intro l hle
            rw [hl] at hle
            obtain rfl : last = l := by simpa using hle
            exact not_lt.mp hlt)] at hnot
          cases hnot
    · intro hnot
      cases hl : hist.lookup (opportunity_key ps o) with
      | none =>
        rw [detection_step_go c sr hist ps o t (by intro last h; rw [hl] at h; cases h)]
      | some last =>
        by_cases hlt : t - last < c
        · rw [detection_step_suppressed c sr hist ps o t last hl hlt] at hnot
          cases hnot
        · rw [detection_step_go c sr hist ps o t (by
            intro l hle
            rw [hl] at hle
            obtain rfl : last = l := by simpa using hle
            exact not_lt.mp hlt)]
  · norm_num [detection_trace, detection_step, dictSet, List.lookup, c2_events]

/-- C2 witness: the amended claim instantiated at a fresh key: with no
cooldown entry, the step notifies, so persistence runs when the send
does not raise. -/
theorem C2_suppressed_not_persisted_witness :
    (detection_step 300 false [] "WETH/USDC" sample_opportunity 0).persisted = !false := by
  refine (C2_suppressed_not_persisted.1 300 false [] "WETH/USDC" sample_opportunity 0).2 ?_
  norm_num [detection_step, dictSet, List.lookup]

/-- C4: the cooldown policy of `start_detection` (lines 44-59): an
opportunity is suppressed iff its key has a cooldown entry strictly
younger than `notification_cooldown`; an opportunity with no entry or
an expired entry is sent and, on each send, the entry is set to the
current time, independently of whether the notification/persistence
path succeeds; consequently (for a nonnegative cooldown) two
notifications for the same key are never emitted less than
`notification_cooldown` seconds apart. -/
theorem C4_cooldown_policy :
    (∀ (c : ℚ) (sr : Bool) (hist : List (String × ℚ)) (ps : String)
      (o : Opportunity) (t : ℚ),
      ((detection_step c sr hist ps o t).notified = false ↔
        ∃ last, hist.lookup (opportunity_key ps o) = some last ∧ t - last < c) ∧
      ((detection_step c sr hist ps o t).notified = true →
        (detection_step c sr hist ps o t).history =
          dictSet (opportunity_key ps o) t hist) ∧
      (∀ sr', (detection_step c sr hist ps o t).history =
          (detection_step c sr' hist ps o t).history ∧
        (detection_step c sr hist ps o t).notified =
          (detection_step c sr' hist ps o t).notified)) ∧
    (∀ (c : ℚ), 0 ≤ c → ∀ (sr : Bool) (ps : String)
      (events : List (Opportunity × ℚ)) (hist : List (String × ℚ))
      (i j : ℕ) (oi oj : Opportunity) (ti tj : ℚ) (pi pj : Bool),
      i < j →
      events[i]? = some (oi, ti) → events[j]? = some (oj, tj) →
      opportunity_key ps oi = opportunity_key ps oj →
      (detection_trace c sr ps hist events)[i]? = some (true, pi) →
      (detection_trace c sr ps hist events)[j]? = some (true, pj) →
      c ≤ tj - ti) := by
  refine ⟨fun c sr hist ps o t => ⟨detection_step_suppressed_iff c sr hist ps o t, ?_, ?_⟩,
      fun c hc sr ps events => detection_no_double_notify c hc sr ps events⟩
  · intro hnot
    cases hl : hist.lookup (opportunity_key ps o) with
    | none =>
      rw [detection_step_go c sr hist ps o t (by intro last h; rw [hl] at h; cases h)]
    | some last =>
      by_cases hlt : t - last < c
      · rw [detection_step_suppressed c sr hist ps o t last hl hlt] at hnot
        cases hnot
      · rw [detection_step_go c sr hist ps o t (by
          intro l hle
          rw [hl] at hle
          obtain rfl : last = l := by simpa using hle
          exact not_lt.mp hlt)]
  · intro sr'
    cases hl : hist.lookup (opportunity_key ps o) with
    | none => simp [detection_step, hl]
    | some last => by_cases hlt : t - last < c <;> simp [detection_step, hl, hlt]

/-- C4 witness: a concrete three-event trace (same opportunity at
times 0, 10, 311 with a 300 s cooldown, starting with an empty
history): events 0 and 2 are both notified and are 311 ≥ 300 seconds
apart. -/
theorem C4_cooldown_policy_witness :
    (0:ℚ) ≤ 300 ∧ (300:ℚ) ≤ 311 - 0 := by
  refine ⟨by norm_num, ?_⟩
  refine C4_cooldown_policy.2 300 (by norm_num) false "WETH/USDC"
    [(sample_opportunity, 0), (sample_opportunity, 10), (sample_opportunity, 311)]
    [] 0 2 sample_opportunity sample_opportunity 0 311 true true
    (by norm_num) (by simp) (by simp) rfl ?_ ?_ <;>
  · norm_num [detection_trace, detection_step, dictSet, List.lookup]

/-- One row of the SQLite `prices` table
(`exchange, pair, price, liquidity, timestamp`,
unique on `(exchange, pair, timestamp)`). -/
structure SqliteRow where
  exchange : String
  pair : String
  price : ℚ
  liquidity : ℚ
  timestamp : ℤ
deriving DecidableEq, Repr

/-- The Redis fast tier as `DataManager` uses it: the
`price:{exchange}:{pair}` string slots written by `setex` and the
`price_history:{exchange}:{pair}` sorted sets (members scored by
timestamp).  The one-hour `setex` expiry is not modelled: all reads in
the verified properties happen inside the TTL. -/
structure RedisState where
  latest : List (String × PriceData)
  zsets : List (String × List PriceData)
deriving Repr

/-- The in-process fallback `in_memory_cache`: the `price:...` latest
slots and the `price_history:...` bounded lists (sorted by timestamp
descending and capped at 10 on every write). -/
structure MemCache where
  latest : List (String × PriceData)
  histories : List (String × List PriceData)
deriving Repr

/-- `DataManager`'s state: the optional Redis connection, the
in-memory fallback, and the two SQLite tables. -/
structure DMState where
  redis : Option RedisState
  memcache : MemCache
  sqlite : List SqliteRow
  opportunities : List Opportunity
deriving Repr

/-- `f"price:{exchange}:{pair}"`. -/
def price_key (exchange pair : String) : String :=
  "price:" ++ exchange ++ ":" ++ pair

/-- `f"price_history:{exchange}:{pair}"`. -/
def history_key (exchange pair : String) : String :=
  "price_history:" ++ exchange ++ ":" ++ pair

/-- Redis `ZADD key score member` with the member being the JSON blob:
adding an already-present member is a no-op on the member set (its
score, the embedded timestamp, is identical). -/
def zadd (z : List PriceData) (d : PriceData) : List PriceData :=
  if d ∈ z then z else z ++ [d]

/-- Redis `ZREMRANGEBYSCORE key 0 old`: drop members whose score lies
in `[0, old]`. -/
def zremrangebyscore (z : List PriceData) (old : ℤ) : List PriceData :=
  z.filter fun (d : PriceData) => !(decide (0 ≤ d.timestamp) && decide (d.timestamp ≤ old))

/-- Redis `ZRANGEBYSCORE key start end`: members with score in
`[start, end]`, returned in ascending score order. -/
def zrangebyscore (z : List PriceData) (startT endT : ℤ) : List PriceData :=
  (z.filter fun (d : PriceData) => decide (startT ≤ d.timestamp) && decide (d.timestamp ≤ endT)).mergeSort
    fun a b => decide (a.timestamp ≤ b.timestamp)

/-- SQLite `INSERT OR REPLACE INTO prices ...` under the unique
`(exchange, pair, timestamp)` constraint: a conflicting row is
replaced (deleted and re-inserted). -/
def sqlite_upsert (rows : List SqliteRow) (row : SqliteRow) : List SqliteRow :=
  (rows.filter fun r =>
    !(r.exchange == row.exchange && r.pair == row.pair && r.timestamp == row.timestamp))
    ++ [row]

/-- The in-memory branch of `DataManager.save_price` (lines 126-149):
overwrite the latest slot, append to the history list, re-sort it by
timestamp descending (Python's stable `sort` with `reverse=True`) and
keep the first 10 entries. -/
def mem_save_price (cache : MemCache) (exchange pair : String) (d : PriceData) :
    MemCache :=
  let hkey := history_key exchange pair
  let history := ((cache.histories.lookup hkey).getD []) ++ [d]
  let sorted := (history.mergeSort fun a b => decide (b.timestamp ≤ a.timestamp)).take 10
  { latest := dictSet (price_key exchange pair) d cache.latest,
    histories := dictSet hkey sorted cache.histories }

/-- The Redis branch of `DataManager.save_price` (lines 104-124):
`setex` the latest slot, `zadd` the history sorted set, prune entries
older than `timestamp - 3600`. -/
def redis_save_price (r : RedisState) (exchange pair : String) (d : PriceData) :
    RedisState :=
  let hkey := history_key exchange pair
  { latest := dictSet (price_key exchange pair) d r.latest,
    zsets := dictSet hkey
      (zremrangebyscore (zadd ((r.zsets.lookup hkey).getD []) d) (PriceData.timestamp d - 3600))
      r.zsets }

/-- `DataManager.save_price` with explicit fault injection, mirroring
its `try`/`except` structure: `cacheFault` models the fast-tier write
raising (caught by `save_price`'s own handler, so the SQLite write
that comes after it in the `try` block is skipped too);
`sqliteFault` models a failure inside `_save_price_to_sqlite`, which
catches it internally and drops the row.  In every case the call
returns normally. -/
def save_price_flt (st : DMState) (exchange pair : String)
    (price liquidity : ℚ) (timestamp : ℤ) (cacheFault sqliteFault : Bool) : DMState :=
  if cacheFault then st
  else
    let d : PriceData := ⟨price, liquidity, timestamp⟩
    let st' :=
      match st.redis with
      | some r => { st with redis := some (redis_save_price r exchange pair d) }
      | none => { st with memcache := mem_save_price st.memcache exchange pair d }
    if sqliteFault then st'
    else { st' with
      sqlite := sqlite_upsert st'.sqlite ⟨exchange, pair, price, liquidity, timestamp⟩ }

/-- `DataManager.save_price` on the fault-free path. -/
def save_price (st : DMState) (exchange pair : String)
    (price liquidity : ℚ) (timestamp : ℤ) : DMState :=
  save_price_flt st exchange pair price liquidity timestamp false false

/-- The read of one latest slot inside `get_latest_prices`: Redis
`get` when connected, else the in-memory cache. -/
def latest_lookup (st : DMState) (exchange pair : String) : Option PriceData :=
  match st.redis with
  | some r => r.latest.lookup (price_key exchange pair)
  | none => st.memcache.latest.lookup (price_key exchange pair)

/-- The venue id lists `DataManager.get_latest_prices` iterates over:
`list(self.config.dexes.keys()) + list(self.config.cexes.keys())`. -/
structure StoreConfig where
  dexes : List String
  cexes : List String

/-- The `for exchange in exchanges` loop of `get_latest_prices`,
accumulating into the `result` dict; `raiseAt e = true` models the
per-venue read raising, which aborts the loop and lands in the
`except` handler — which returns the result accumulated so far. -/
def get_latest_prices_loop (st : DMState) (pair : String) (raiseAt : String → Bool) :
    List String → List (String × PriceData) → List (String × PriceData)
  | [], result => result
  | e :: rest, result =>
      if raiseAt e then result
      else match latest_lookup st e pair with
        | some d => get_latest_prices_loop st pair raiseAt rest (dictSet e d result)
        | none => get_latest_prices_loop st pair raiseAt rest result

/-- `DataManager.get_latest_prices` (lines 182-208), with fault
injection. -/
def get_latest_prices (cfg : StoreConfig) (st : DMState) (pair : String)
    (raiseAt : String → Bool) : List (String × PriceData) :=
  get_latest_prices_loop st pair raiseAt (cfg.dexes ++ cfg.cexes) []

/-- No-fault oracle. -/
def noRaise : String → Bool := fun _ => false

/-- `DataManager._get_price_history_from_sqlite`:
`SELECT * FROM prices WHERE exchange = ? AND pair = ? AND timestamp
BETWEEN ? AND ? ORDER BY timestamp`. -/
def get_price_history_from_sqlite (rows : List SqliteRow)
    (exchange pair : String) (startT endT : ℤ) : List PriceData :=
  ((rows.filter fun r => r.exchange == exchange && r.pair == pair &&
      decide (startT ≤ r.timestamp) && decide (r.timestamp ≤ endT)).map
    fun r => (⟨r.price, r.liquidity, r.timestamp⟩ : PriceData)).mergeSort
    fun a b => decide (a.timestamp ≤ b.timestamp)

/-- `DataManager.get_price_history` (lines 210-258) with fault
injection: `fastFault` models the fast-tier read raising before
anything is accumulated (the `except` handler returns the empty
result); `sqliteFault` models a failure inside
`_get_price_history_from_sqlite`, which catches it internally and
contributes no rows.  The Redis branch returns the range query result;
the in-memory branch filters the bounded history list and, when it
found fewer than 10 points, merges in durable-log rows whose timestamp
is not already present; both branches end with
`result.sort(key=timestamp)`. -/
def fast_tier_points (st : DMState) (exchange pair : String)
    (startT endT : ℤ) : List PriceData :=
  ((st.memcache.histories.lookup (history_key exchange pair)).getD []).filter
    fun (d : PriceData) => decide (startT ≤ d.timestamp) && decide (d.timestamp ≤ endT)

def get_price_history_flt (st : DMState) (exchange pair : String)
    (startT endT : ℤ) (fastFault sqliteFault : Bool) : List PriceData :=
  if fastFault then []
  else
    let result :=
      match st.redis with
      | some r => zrangebyscore ((r.zsets.lookup (history_key exchange pair)).getD [])
          startT endT
      | none =>
          let fast := fast_tier_points st exchange pair startT endT
          if fast.length < 10 then
            let db := if sqliteFault then []
              else get_price_history_from_sqlite st.sqlite exchange pair startT endT
            fast ++ db.filter fun (d : PriceData) => !((fast.map PriceData.timestamp).contains d.timestamp)
          else fast
    result.mergeSort fun (a b : PriceData) => decide (a.timestamp ≤ b.timestamp)

/-- `DataManager.get_price_history` on the fault-free path. -/
def get_price_history (st : DMState) (exchange pair : String)
    (startT endT : ℤ) : List PriceData :=
  get_price_history_flt st exchange pair startT endT false false

/-- `DataManager.save_arbitrage_opportunity` with fault injection: the
SQLite insert failure is caught (both in the helper and the wrapper)
and the call returns normally, dropping the row. -/
def save_arbitrage_opportunity_flt (st : DMState) (o : Opportunity)
    (sqliteFault : Bool) : DMState :=
  if sqliteFault then st
  else { st with opportunities := st.opportunities ++ [o] }

/-- A fresh `DataManager` state in degraded (no-Redis) mode. -/
def empty_dm : DMState := ⟨none, ⟨[], []⟩, [], []⟩

theorem latest_lookup_save_price (st : DMState) (exchange pair : String)
    (price liquidity : ℚ) (ts : ℤ) :
    latest_lookup (save_price st exchange pair price liquidity ts) exchange pair =
      some ⟨price, liquidity, ts⟩ := by
  cases hr : st.redis with
  | none =>
    simp [save_price, save_price_flt, latest_lookup, hr, mem_save_price,
      lookup_dictSet_self]
  | some r =>
    simp [save_price, save_price_flt, latest_lookup, hr, redis_save_price,
      lookup_dictSet_self]

/-- C3 counterexample: for the same key, writing point A (price 1,
timestamp 100) and then point B (price 2, timestamp 50) leaves the
readable latest value equal to B, not A as the claim requires. -/
theorem C3_counterexample :
    ¬ ((get_latest_prices ⟨["uniswap"], []⟩
        (save_price (save_price empty_dm "uniswap" "WETH/USDC" 1 0 100)
          "uniswap" "WETH/USDC" 2 0 50) "WETH/USDC" noRaise).lookup "uniswap"
        = some ⟨1, 0, 100⟩) := by
  have h2 : latest_lookup
      (save_price (save_price empty_dm "uniswap" "WETH/USDC" 1 0 100)
        "uniswap" "WETH/USDC" 2 0 50) "uniswap" "WETH/USDC" = some ⟨2, 0, 50⟩ :=
    latest_lookup_save_price _ _ _ _ _ _
  intro hcontra
  rw [show (get_latest_prices ⟨["uniswap"], []⟩
      (save_price (save_price empty_dm "uniswap" "WETH/USDC" 1 0 100)
        "uniswap" "WETH/USDC" 2 0 50) "WETH/USDC" noRaise) =
      [("uniswap", (⟨2, 0, 50⟩ : PriceData))] from by
    simp [get_latest_prices, get_latest_prices_loop, noRaise, h2, dictSet]] at hcontra
  simp [List.lookup, PriceData.mk.injEq] at hcontra

/-- C3 (amended): the price store's latest slot is last-writer-wins by
ARRIVAL order, not by timestamp: every `save_price` call overwrites
the readable latest value for its `(venue, pair)` key with the newly
saved point, regardless of how its timestamp compares to the stored
one; in particular writing point A at `t=100` and then point B at
`t=50` leaves the readable latest value equal to B. -/
theorem C3_latest_last_arrival :
    (∀ (st : DMState) (exchange pair : String) (price liquidity : ℚ) (ts : ℤ),
      latest_lookup (save_price st exchange pair price liquidity ts) exchange pair =
        some ⟨price, liquidity, ts⟩) ∧
    (get_latest_prices ⟨["uniswap"], []⟩
      (save_price (save_price empty_dm "uniswap" "WETH/USDC" 1 0 100)
        "uniswap" "WETH/USDC" 2 0 50) "WETH/USDC" noRaise).lookup "uniswap"
      = some ⟨2, 0, 50⟩ := by
  refine ⟨latest_lookup_save_price, ?_⟩
  have h2 : latest_lookup
      (save_price (save_price empty_dm "uniswap" "WETH/USDC" 1 0 100)
        "uniswap" "WETH/USDC" 2 0 50) "uniswap" "WETH/USDC" = some ⟨2, 0, 50⟩ :=
    latest_lookup_save_price _ _ _ _ _ _
  simp [get_latest_prices, get_latest_prices_loop, noRaise, h2, dictSet, List.lookup]

theorem mem_keys_dictSet {α : Type} (k : String) (v : α) :
    ∀ (l : List (String × α)) (q : String),
      q ∈ (dictSet k v l).map Prod.fst ↔ q = k ∨ q ∈ l.map Prod.fst := by
  intro l
  induction l with
  | nil => intro q; simp [dictSet]
  | cons x rest ih =>
    obtain ⟨k₀, v₀⟩ := x
    intro q
    by_cases h : k₀ = k
    · subst h
      simp [dictSet]
    · simp [dictSet, if_neg h, ih]
      tauto

theorem get_latest_prices_loop_keys (st : DMState) (pair : String)
    (raiseAt : String → Bool) :
    ∀ (l : List String) (acc : List (String × PriceData)) (p : String × PriceData),
      p ∈ get_latest_prices_loop st pair raiseAt l acc →
      p.1 ∈ acc.map Prod.fst ∨ p.1 ∈ l := by
  intro l
  induction l with
  | nil =>
    intro acc p hp
    exact Or.inl (List.mem_map_of_mem _ hp)
  | cons e rest ih =>
    intro acc p hp
    simp only [get_latest_prices_loop] at hp
    by_cases hr : raiseAt e
    · rw [if_pos hr] at hp
      exact Or.inl (List.mem_map_of_mem _ hp)
    · rw [if_neg hr] at hp
      cases hl : latest_lookup st e pair with
      | some d =>
        rw [hl] at hp
        rcases ih (dictSet e d acc) p hp with h | h
        · rcases (mem_keys_dictSet e d acc p.1).mp h with h' | h'
          · exact Or.inr (by simp [h'])
          · exact Or.inl h'
        · exact Or.inr (List.mem_cons_of_mem e h)
      | none =>
        rw [hl] at hp
        rcases ih acc p hp with h | h
        · exact Or.inl h
        · exact Or.inr (List.mem_cons_of_mem e h)

theorem get_latest_prices_loop_lookup (st : DMState) (pair : String) :
    ∀ (l : List String) (acc : List (String × PriceData)) (e : String),
      (get_latest_prices_loop st pair noRaise l acc).lookup e =
        if e ∈ l ∧ (latest_lookup st e pair).isSome
        then latest_lookup st e pair else acc.lookup e := by
  intro l
  induction l with
  | nil => intro acc e; simp [get_latest_prices_loop]
  | cons e₀ rest ih =>
    intro acc e
    have hstep : get_latest_prices_loop st pair noRaise (e₀ :: rest) acc =
        match latest_lookup st e₀ pair with
        | some d => get_latest_prices_loop st pair noRaise rest (dictSet e₀ d acc)
        | none => get_latest_prices_loop st pair noRaise rest acc := by
      simp [get_latest_prices_loop, noRaise]
    cases hl : latest_lookup st e₀ pair with
    | some d =>
      rw [hstep, hl, ih]
      by_cases he : e = e₀
      · subst he
        by_cases hm : e ∈ rest <;> simp [hm, hl, lookup_dictSet_self]
      · rw [lookup_dictSet_ne e₀ e he d acc]
        have hmem : (e ∈ e₀ :: rest) ↔ e ∈ rest := by simp [List.mem_cons, he]
        simp only [hmem]
    | none =>
      rw [hstep, hl, ih]
      by_cases he : e = e₀
      · subst he
        simp [hl]
      · have hmem : (e ∈ e₀ :: rest) ↔ e ∈ rest := by simp [List.mem_cons, he]
        simp only [hmem]

/-- C10: the map returned by `get_latest_prices` has keys drawn only
from the configured venue ids (the DEX ids followed by the CEX ids); a
price entry stored under any other venue id is never returned, and a
configured venue with no stored entry for the pair is simply absent:
the lookup of any venue id in the result is the stored latest value if
the venue is configured and has one, and `none` otherwise. -/
theorem C10_latest_keys_configured :
    (∀ (cfg : StoreConfig) (st : DMState) (pair : String) (p : String × PriceData),
      p ∈ get_latest_prices cfg st pair noRaise → p.1 ∈ cfg.dexes ++ cfg.cexes) ∧
    (∀ (cfg : StoreConfig) (st : DMState) (pair : String) (e : String),
      (get_latest_prices cfg st pair noRaise).lookup e =
        if e ∈ cfg.dexes ++ cfg.cexes ∧ (latest_lookup st e pair).isSome
        then latest_lookup st e pair else none) := by
  constructor
  · intro cfg st pair p hp
    rcases get_latest_prices_loop_keys st pair noRaise (cfg.dexes ++ cfg.cexes) [] p hp
      with h | h
    · simp at h
    · exact h
  · intro cfg st pair e
    rw [get_latest_prices, get_latest_prices_loop_lookup st pair (cfg.dexes ++ cfg.cexes) [] e]
    rfl

/-- C10 witness: with one configured DEX holding a stored entry, the
result contains exactly that entry; an unconfigured venue id is absent. -/
theorem C10_latest_keys_configured_witness :
    (("uniswap", (⟨5, 0, 3⟩ : PriceData)) ∈
        get_latest_prices ⟨["uniswap"], []⟩
          (save_price empty_dm "uniswap" "WETH/USDC" 5 0 3) "WETH/USDC" noRaise →
      ("uniswap" : String) ∈ (["uniswap"] : List String) ++ ([] : List String)) ∧
    (get_latest_prices ⟨["uniswap"], []⟩
      (save_price empty_dm "uniswap" "WETH/USDC" 5 0 3) "WETH/USDC" noRaise).lookup
        "bitbank" = none := by
  constructor
  · exact fun h => C10_latest_keys_configured.1 ⟨["uniswap"], []⟩ _ "WETH/USDC" _ h
  · rw [C10_latest_keys_configured.2 ⟨["uniswap"], []⟩ _ "WETH/USDC" "bitbank"]
    simp

theorem get_latest_prices_loop_raise (st : DMState) (pair : String)
    (raiseAt : String → Bool) :
    ∀ (l : List String) (acc : List (String × PriceData)),
      get_latest_prices_loop st pair raiseAt l acc =
        get_latest_prices_loop st pair noRaise
          (l.takeWhile fun e => !raiseAt e) acc := by
  intro l
  induction l with
  | nil => intro acc; simp [get_latest_prices_loop, List.takeWhile]
  | cons e rest ih =>
    intro acc
    by_cases hr : raiseAt e
    · simp [get_latest_prices_loop, hr, List.takeWhile]
    · have hb : raiseAt e = false := by simpa using hr
      simp only [get_latest_prices_loop, hb, List.takeWhile, Bool.not_false,
        if_neg Bool.false_ne_true]
      cases hl : latest_lookup st e pair with
      | some d => simp [hl, ih, noRaise]
      | none => simp [hl, ih, noRaise]

/-- C9: the data manager's public operations never propagate internal
failures: `get_latest_prices` returns the entries accumulated over the
venues preceding the first failing read; `save_price` returns normally
with the state unchanged when the fast-tier write fails, and merely
drops the durable row when the SQLite write fails (never touching the
opportunity log); `get_price_history` returns the empty accumulation
when the fast-tier read fails and behaves as if the durable log were
empty when the SQLite read fails; `save_arbitrage_opportunity` leaves
the state unchanged on failure and appends the row otherwise.  All four
are total functions of the fault configuration: no fault aborts the
caller. -/
theorem C9_no_exception_escape :
    (∀ (cfg : StoreConfig) (st : DMState) (pair : String) (raiseAt : String → Bool),
      get_latest_prices cfg st pair raiseAt =
        get_latest_prices_loop st pair noRaise
          ((cfg.dexes ++ cfg.cexes).takeWhile fun e => !raiseAt e) []) ∧
    (∀ (st : DMState) (exchange pair : String) (price liquidity : ℚ) (ts : ℤ)
      (cf sf : Bool),
      (cf = true → save_price_flt st exchange pair price liquidity ts cf sf = st) ∧
      (save_price_flt st exchange pair price liquidity ts false true).sqlite =
        st.sqlite ∧
      (save_price_flt st exchange pair price liquidity ts cf sf).opportunities =
        st.opportunities) ∧
    (∀ (st : DMState) (exchange pair : String) (startT endT : ℤ) (sf : Bool),
      get_price_history_flt st exchange pair startT endT true sf = [] ∧
      get_price_history_flt st exchange pair startT endT false true =
        get_price_history_flt { st with sqlite := [] } exchange pair startT endT
          false false) ∧
    (∀ (st : DMState) (o : Opportunity) (sf : Bool),
      (sf = true → save_arbitrage_opportunity_flt st o sf = st) ∧
      save_arbitrage_opportunity_flt st o false =
        { st with opportunities := st.opportunities ++ [o] }) := by
  refine ⟨fun cfg st pair raiseAt => ?_, fun st exchange pair price liquidity ts cf sf =>
    ⟨?_, ?_, ?_⟩, fun st exchange pair startT endT sf => ⟨?_, ?_⟩, fun st o sf => ⟨?_, ?_⟩⟩
  · rw [get_latest_prices, get_latest_prices_loop_raise]
  · intro hcf; subst hcf; simp [save_price_flt]
  · cases hr : st.redis <;> simp [save_price_flt, hr]
  · by_cases hcf : cf = true
    · subst hcf; simp [save_price_flt]
    · have : cf = false := by simpa using hcf
      subst this
      cases hr : st.redis <;> by_cases hsf : sf = true <;>
        simp_all [save_price_flt, hr]
  · simp [get_price_history_flt]
  · cases hr : st.redis with
    | some r => simp [get_price_history_flt, hr]
    | none => simp [get_price_history_flt, hr, get_price_history_from_sqlite, fast_tier_points]
  · intro hsf; subst hsf; simp [save_arbitrage_opportunity_flt]
  · simp [save_arbitrage_opportunity_flt]

/-- C9 witness: a fast-tier fault makes `save_price` a no-op, and a
durable-log fault makes `save_arbitrage_opportunity` a no-op — both
return normally. -/
theorem C9_no_exception_escape_witness :
    save_price_flt empty_dm "uniswap" "WETH/USDC" 1 0 100 true false = empty_dm ∧
    save_arbitrage_opportunity_flt empty_dm sample_opportunity true = empty_dm :=
  ⟨(C9_no_exception_escape.2.1 empty_dm "uniswap" "WETH/USDC" 1 0 100 true false).1 rfl,
    (C9_no_exception_escape.2.2.2 empty_dm sample_opportunity true).1 rfl⟩

theorem priceData_le_trans :
    ∀ (a b c : PriceData), (decide (a.timestamp ≤ b.timestamp)) = true →
      (decide (b.timestamp ≤ c.timestamp)) = true →
      (decide (a.timestamp ≤ c.timestamp)) = true := by
  intro a b c h1 h2
  simp at h1 h2 ⊢
  omega

theorem priceData_le_total :
    ∀ (a b : PriceData), ((decide (a.timestamp ≤ b.timestamp)) ||
      (decide (b.timestamp ≤ a.timestamp))) = true := by
  intro a b
  simp
  omega

theorem mem_sqlite_range (rows : List SqliteRow) (exchange pair : String)
    (startT endT : ℤ) (d : PriceData)
    (hd : d ∈ get_price_history_from_sqlite rows exchange pair startT endT) :
    startT ≤ d.timestamp ∧ d.timestamp ≤ endT := by
  rw [get_price_history_from_sqlite, List.mem_mergeSort] at hd
  obtain ⟨r, hr, rfl⟩ := List.mem_map.mp hd
  have := (List.mem_filter.mp hr).2
  simp at this
  exact ⟨by tauto, by tauto⟩

theorem mem_history_result (st : DMState) (exchange pair : String)
    (startT endT : ℤ) (ff sf : Bool) (d : PriceData)
    (hd : d ∈ get_price_history_flt st exchange pair startT endT ff sf) :
    startT ≤ d.timestamp ∧ d.timestamp ≤ endT := by
  by_cases hff : ff = true
  · subst hff
    simp [get_price_history_flt] at hd
  · have : ff = false := by simpa using hff
    subst this
    rw [get_price_history_flt] at hd
    simp only [if_neg Bool.false_ne_true, List.mem_mergeSort] at hd
    cases hr : st.redis with
    | some r =>
      rw [hr] at hd
      simp only [zrangebyscore, List.mem_mergeSort, List.mem_filter] at hd
      have := hd.2
      simp at this
      exact this
    | none =>
      rw [hr] at hd
      by_cases hlen : (fast_tier_points st exchange pair startT endT).length < 10
      · simp only [if_pos hlen, List.mem_append, List.mem_filter] at hd
        rcases hd with hfast | ⟨hdb, -⟩
        · have := (List.mem_filter.mp hfast).2
          simp at this
          exact this
        · by_cases hsf : sf = true
          · subst hsf; simp at hdb
          · have : sf = false := by simpa using hsf
            subst this
            exact mem_sqlite_range st.sqlite exchange pair startT endT d hdb
      · simp only [if_neg hlen] at hd
        have := (List.mem_filter.mp hd).2
        simp at this
        exact this

theorem history_result_sorted (st : DMState) (exchange pair : String)
    (startT endT : ℤ) (ff sf : Bool) :
    List.Pairwise (fun a b : PriceData => a.timestamp ≤ b.timestamp)
      (get_price_history_flt st exchange pair startT endT ff sf) := by
  by_cases hff : ff = true
  · subst hff
    simp [get_price_history_flt]
  · have : ff = false := by simpa using hff
    subst this
    rw [get_price_history_flt]
    simp only [if_neg Bool.false_ne_true]
    refine (List.sorted_mergeSort priceData_le_trans priceData_le_total _).imp ?_
    intro a b h
    simpa using h

theorem history_merge_degraded (st : DMState) (exchange pair : String)
    (startT endT : ℤ) (hr : st.redis = none)
    (hlen : (fast_tier_points st exchange pair startT endT).length < 10)
    (d : PriceData) :
    d ∈ get_price_history st exchange pair startT endT ↔
      d ∈ fast_tier_points st exchange pair startT endT ∨
        (d ∈ get_price_history_from_sqlite st.sqlite exchange pair startT endT ∧
          d.timestamp ∉
            (fast_tier_points st exchange pair startT endT).map PriceData.timestamp) := by
  rw [get_price_history, get_price_history_flt]
  simp only [if_neg Bool.false_ne_true, hr, if_pos hlen, List.mem_mergeSort,
    List.mem_append, List.mem_filter]
  constructor
  · rintro (h | ⟨hdb, hc⟩)
    · exact Or.inl h
    · refine Or.inr ⟨hdb, ?_⟩
      simpa using hc
  · rintro (h | ⟨hdb, hc⟩)
    · exact Or.inl h
    · refine Or.inr ⟨hdb, ?_⟩
      simpa using hc

theorem history_no_merge_degraded (st : DMState) (exchange pair : String)
    (startT endT : ℤ) (hr : st.redis = none)
    (hlen : ¬ (fast_tier_points st exchange pair startT endT).length < 10)
    (d : PriceData) :
    d ∈ get_price_history st exchange pair startT endT ↔
      d ∈ fast_tier_points st exchange pair startT endT := by
  rw [get_price_history, get_price_history_flt]
  simp only [if_neg Bool.false_ne_true, hr, if_neg hlen, List.mem_mergeSort]

theorem history_redis_ignores_sqlite (st : DMState) (r : RedisState)
    (rows : List SqliteRow) (exchange pair : String) (startT endT : ℤ)
    (hr : st.redis = some r) :
    get_price_history { st with sqlite := rows } exchange pair startT endT =
      get_price_history st exchange pair startT endT := by
  rw [get_price_history, get_price_history, get_price_history_flt, get_price_history_flt]
  simp [hr]

/-- A `DataManager` state with Redis connected: the fast tier holds one
in-range history point (timestamp 100) and the durable log holds an
in-range row with a distinct timestamp (200). -/
def c8_redis_state : DMState :=
  ⟨some ⟨[], [(history_key "uniswap" "WETH/USDC", [⟨1, 0, 100⟩])]⟩, ⟨[], []⟩,
    [⟨"uniswap", "WETH/USDC", 2, 0, 200⟩], []⟩

/-- C8 counterexample: with the fast tier (Redis) available and
yielding only one point (fewer than 10) for the range `[0, 1000]`, the
durable log's in-range row with a fresh timestamp is NOT merged into
the result — the merge happens only in the degraded (in-process) mode,
contradicting the claim that it happens whenever the fast tier yields
fewer than 10 points. -/
theorem C8_counterexample :
    (zrangebyscore ((c8_redis_state.redis.map RedisState.zsets).getD []
        |>.lookup (history_key "uniswap" "WETH/USDC") |>.getD []) 0 1000).length < 10 ∧
    get_price_history_from_sqlite c8_redis_state.sqlite "uniswap" "WETH/USDC" 0 1000 =
      [⟨2, 0, 200⟩] ∧
    (⟨2, 0, 200⟩ : PriceData) ∉
      get_price_history c8_redis_state "uniswap" "WETH/USDC" 0 1000 := by
  refine ⟨?_, ?_, ?_⟩
  · norm_num [c8_redis_state, zrangebyscore, List.lookup]
  · norm_num [c8_redis_state, get_price_history_from_sqlite, List.filter]
  · norm_num [c8_redis_state, get_price_history, get_price_history_flt,
      zrangebyscore, List.lookup, List.filter, PriceData.mk.injEq]

/-- C8 (amended): `get_price_history` returns only entries whose
timestamp lies in the requested range, sorted ascending by timestamp;
the durable-log merge happens only in degraded (in-process fallback)
mode: there, when the fallback yields fewer than 10 in-range points,
durable-log rows for the range are merged in, excluding rows whose
timestamp equals a fallback timestamp, and with 10 or more points no
durable rows are added; with the external cache available the durable
log is never consulted, however few points the cache returns. -/
theorem C8_history_read_path :
    (∀ (st : DMState) (exchange pair : String) (startT endT : ℤ),
      List.Pairwise (fun a b : PriceData => a.timestamp ≤ b.timestamp)
        (get_price_history st exchange pair startT endT) ∧
      ∀ d ∈ get_price_history st exchange pair startT endT,
        startT ≤ d.timestamp ∧ d.timestamp ≤ endT) ∧
    (∀ (st : DMState) (exchange pair : String) (startT endT : ℤ),
      st.redis = none →
      (((fast_tier_points st exchange pair startT endT).length < 10 →
        ∀ d, d ∈ get_price_history st exchange pair startT endT ↔
          d ∈ fast_tier_points st exchange pair startT endT ∨
            (d ∈ get_price_history_from_sqlite st.sqlite exchange pair startT endT ∧
              d.timestamp ∉
                (fast_tier_points st exchange pair startT endT).map
                  PriceData.timestamp)) ∧
      (¬ (fast_tier_points st exchange pair startT endT).length < 10 →
        ∀ d, d ∈ get_price_history st exchange pair startT endT ↔
          d ∈ fast_tier_points st exchange pair startT endT))) ∧
    (∀ (st : DMState) (r : RedisState) (rows : List SqliteRow)
      (exchange pair : String) (startT endT : ℤ), st.redis = some r →
      get_price_history { st with sqlite := rows } exchange pair startT endT =
        get_price_history st exchange pair startT endT) := by
  refine ⟨fun st ex pr s e => ⟨history_result_sorted st ex pr s e false false,
      fun d hd => mem_history_result st ex pr s e false false d hd⟩,
    fun st ex pr s e hr => ⟨fun hlen d => history_merge_degraded st ex pr s e hr hlen d,
      fun hlen d => history_no_merge_degraded st ex pr s e hr hlen d⟩,
    fun st r rows ex pr s e hr => history_redis_ignores_sqlite st r rows ex pr s e hr⟩

/-- C8 witness: with the external cache present, swapping the whole
durable log out for an empty one does not change the history result. -/
theorem C8_history_read_path_witness :
    get_price_history { c8_redis_state with sqlite := [] } "uniswap" "WETH/USDC" 0 1000 =
      get_price_history c8_redis_state "uniswap" "WETH/USDC" 0 1000 :=
  C8_history_read_path.2.2 c8_redis_state
    ⟨[], [(history_key "uniswap" "WETH/USDC", [⟨1, 0, 100⟩])]⟩ []
    "uniswap" "WETH/USDC" 0 1000 rfl

/-- Python's `str.upper()`, modelled character-wise. -/
def pyUpper (s : String) : String := ⟨s.data.map Char.toUpper⟩

/-- A token object of a pool/pair response (`{"symbol": ...}`). -/
structure Token where
  symbol : String
deriving DecidableEq, Repr

/-- A raw numeric field (`liquidity` / `reserveUSD`) as received:
absent from the JSON object, a parseable number, or a value on which
Python's `float()` raises. -/
inductive NumField
  | missing
  | num (q : ℚ)
  | invalid
deriving DecidableEq, Repr

/-- One pool (Uniswap/QuickSwap) or pair (SushiSwap) entry of a
GraphQL response.  The price fields are assumed parseable; the
liquidity fields keep their raw shape because zero/missing/invalid
liquidity is part of the specified behaviour. -/
structure Pool where
  id : String
  token0 : Token
  token1 : Token
  token0Price : ℚ
  token1Price : ℚ
  liquidity : NumField
  reserveUSD : NumField
deriving DecidableEq, Repr

/-- A response body as the parsers see it: whether the `errors` key is
present, and the `data.pools` / `data.pairs` list. -/
structure ParserResponse where
  hasErrors : Bool
  pools : List Pool
deriving Repr

/-- The price point a parser returns (`results[0]`). -/
structure ParsedPoint where
  pool_id : String
  price : ℚ
  liquidity : ℚ
  base_token : String
  quote_token : String
  timestamp : ℤ
  selected_from : ℕ
  valid_pools : ℕ
deriving DecidableEq, Repr

/-- The two-sided exact symbol match of the parsers (lines 42-43 /
124-125): both tokens match the configured pair in either order, with
both sides uppercased. -/
def symbols_match (base_upper quote_upper : String) (p : Pool) : Bool :=
  (pyUpper p.token0.symbol == base_upper && pyUpper p.token1.symbol == quote_upper) ||
  (pyUpper p.token0.symbol == quote_upper && pyUpper p.token1.symbol == base_upper)

/-- `float(pool["liquidity"]) if "liquidity" in pool else 0`; `none`
when `float()` raises. -/
def uniswap_liquidity (p : Pool) : Option ℚ :=
  match p.liquidity with
  | .missing => some 0
  | .num q => some q
  | .invalid => none

/-- The liquidity sort key (line 53), on pools whose liquidity parsed. -/
def pool_liq_val (p : Pool) : ℚ := (uniswap_liquidity p).getD 0

/-- The `for pool in pools` filter of `parse_uniswap_response`
(lines 37-50): keep symbol-matching pools with liquidity > 0; a
matching pool whose liquidity makes `float()` raise aborts the whole
parse (the outer `except` then yields `[]`). -/
def uniswap_valid_pools (base_upper quote_upper : String) :
    List Pool → Except Unit (List Pool)
  | [] => .ok []
  | p :: rest =>
      if symbols_match base_upper quote_upper p then
        match uniswap_liquidity p with
        | none => .error ()
        | some l =>
            if 0 < l then (uniswap_valid_pools base_upper quote_upper rest).map (p :: ·)
            else uniswap_valid_pools base_upper quote_upper rest
      else uniswap_valid_pools base_upper quote_upper rest

/-- The direction selection shared by the parsers (lines 62-69 /
142-149): if `token0`'s uppercased symbol equals the uppercased base,
the price is `token1Price` (with `(base, quote) = (token0, token1)`),
else `token0Price`. Returns `(price, base_token, quote_token)`. -/
def select_direction (base_upper : String) (p : Pool) : ℚ × String × String :=
  if pyUpper p.token0.symbol == base_upper
  then (p.token1Price, p.token0.symbol, p.token1.symbol)
  else (p.token0Price, p.token1.symbol, p.token0.symbol)

/-- `parse_uniswap_response` (graphql/parsers.py lines 10-89): on an
`errors` response or a parse exception return `[]`; otherwise sort the
valid pools by liquidity descending (Python's stable sort) and emit the
first, if any. -/
def parse_uniswap_response (resp : ParserResponse) (base_token quote_token : String)
    (now : ℤ) : List ParsedPoint :=
  if resp.hasErrors then []
  else
    match uniswap_valid_pools (pyUpper base_token) (pyUpper quote_token) resp.pools with
    | .error _ => []
    | .ok valid =>
        match valid.mergeSort fun a b => decide (pool_liq_val b ≤ pool_liq_val a) with
        | [] => []
        | top :: _ =>
            let sel := select_direction (pyUpper base_token) top
            [{ pool_id := top.id, price := sel.1, liquidity := pool_liq_val top,
               base_token := sel.2.1, quote_token := sel.2.2, timestamp := now,
               selected_from := resp.pools.length, valid_pools := valid.length }]

/-- The SushiSwap client-side filter (lines 119-132): exact two-sided
symbol match and both prices strictly positive; liquidity plays no
role. -/
def sushiswap_valid_pairs (base_upper quote_upper : String)
    (pairs : List Pool) : List Pool :=
  pairs.filter fun p => symbols_match base_upper quote_upper p &&
    decide (0 < p.token0Price) && decide (0 < p.token1Price)

/-- `float(top_pair.get("reserveUSD", 0))` with `ValueError`/`TypeError`
caught, leaving 0. -/
def sushi_liquidity (p : Pool) : ℚ :=
  match p.reserveUSD with
  | .missing => 0
  | .num q => q
  | .invalid => 0

/-- `parse_sushiswap_response` (lines 91-176): no liquidity sort — the
first valid pair in remote response order is used. -/
def parse_sushiswap_response (resp : ParserResponse) (base_token quote_token : String)
    (now : ℤ) : List ParsedPoint :=
  if resp.hasErrors then []
  else
    match sushiswap_valid_pairs (pyUpper base_token) (pyUpper quote_token) resp.pools with
    | [] => []
    | top :: _ =>
        let sel := select_direction (pyUpper base_token) top
        [{ pool_id := top.id, price := sel.1, liquidity := sushi_liquidity top,
           base_token := sel.2.1, quote_token := sel.2.2, timestamp := now,
           selected_from := resp.pools.length,
           valid_pools := (sushiswap_valid_pairs (pyUpper base_token)
             (pyUpper quote_token) resp.pools).length }]

/-- The direction-and-store slice of `PriceMonitor._fetch_uniswap_prices`
(price_monitoring.py lines 141-156): the first pool of the response is
used as-is; the price is `token1Price` if `token0`'s UPPERCASED symbol
equals the configured `pair.base` VERBATIM (the configured side is not
uppercased here), else `token0Price`; a liquidity `float()` failure is
caught per-pair and no point is produced. -/
def fetch_uniswap_price_point (pools : List Pool) (base : String) (now : ℤ) :
    Option PriceData :=
  match pools with
  | [] => none
  | pool :: _ =>
      let price := if pyUpper pool.token0.symbol == base then pool.token1Price
        else pool.token0Price
      match pool.liquidity with
      | .invalid => none
      | .missing => some ⟨price, 0, now⟩
      | .num q => some ⟨price, q, now⟩

theorem uniswap_valid_pools_spec (bu qu : String) :
    ∀ (l v : List Pool), uniswap_valid_pools bu qu l = .ok v →
      ∀ p ∈ v, p ∈ l ∧ symbols_match bu qu p = true ∧ 0 < pool_liq_val p := by
  intro l
  induction l with
  | nil =>
    intro v hv p hp
    simp only [uniswap_valid_pools, Except.ok.injEq] at hv
    subst hv
    simp at hp
  | cons q rest ih =>
    intro v hv p hp
    simp only [uniswap_valid_pools] at hv
    by_cases hm : symbols_match bu qu q = true
    · rw [if_pos hm] at hv
      cases hl : uniswap_liquidity q with
      | none => rw [hl] at hv; cases hv
      | some lq =>
        rw [hl] at hv
        dsimp only at hv
        by_cases hpos : 0 < lq
        · rw [if_pos hpos] at hv
          cases hrec : uniswap_valid_pools bu qu rest with
          | error e => rw [hrec] at hv; cases hv
          | ok vrest =>
            rw [hrec] at hv
            simp only [Except.map, Except.ok.injEq] at hv
            subst hv
            rcases List.mem_cons.mp hp with rfl | hp'
            · exact ⟨List.mem_cons_self _ _, hm, by simp [pool_liq_val, hl, hpos]⟩
            · obtain ⟨h1, h2, h3⟩ := ih vrest hrec p hp'
              exact ⟨List.mem_cons_of_mem _ h1, h2, h3⟩
        · rw [if_neg hpos] at hv
          obtain ⟨h1, h2, h3⟩ := ih v hv p hp
          exact ⟨List.mem_cons_of_mem _ h1, h2, h3⟩
    · rw [if_neg hm] at hv
      obtain ⟨h1, h2, h3⟩ := ih v hv p hp
      exact ⟨List.mem_cons_of_mem _ h1, h2, h3⟩

/-- The direction property required of a price derived from a matching
pool: `token1Price` when `token0` matches the (uppercased) base,
otherwise `token0Price` — and in that case `token1` matches the base. -/
def direction_ok (bu : String) (p : Pool) (price : ℚ) : Prop :=
  (pyUpper p.token0.symbol = bu ∧ price = p.token1Price) ∨
  (pyUpper p.token0.symbol ≠ bu ∧ pyUpper p.token1.symbol = bu ∧ price = p.token0Price)

theorem select_direction_ok (bu qu : String) (p : Pool)
    (hm : symbols_match bu qu p = true) :
    direction_ok bu p (select_direction bu p).1 := by
  rw [select_direction]
  by_cases h0 : (pyUpper p.token0.symbol == bu) = true
  · rw [if_pos h0]
    exact Or.inl ⟨by simpa using h0, rfl⟩
  · rw [if_neg h0]
    refine Or.inr ⟨by simpa using h0, ?_, rfl⟩
    rw [symbols_match] at hm
    rcases Bool.or_eq_true_iff.mp hm with h | h
    · exact absurd (Bool.and_eq_true_iff.mp h).1 h0
    · simpa using (Bool.and_eq_true_iff.mp h).2

/-- C5 (amended): every price point produced from a two-token pool
response whose token symbols match the configured pair in either order
is quote-per-base — `token1Price` when `token0` matches the base,
`token0Price` when instead `token1` matches — with a case-insensitive
exact symbol comparison.  This holds unconditionally for the GraphQL
parsers; for the price monitor's inline Uniswap fetcher it holds
provided the configured base symbol is already uppercase, because that
code compares the uppercased remote symbol against the configured base
verbatim. -/
theorem C5_direction_resolution :
    (∀ (resp : ParserResponse) (base quote : String) (now : ℤ) (pt : ParsedPoint),
      pt ∈ parse_uniswap_response resp base quote now →
      ∃ p ∈ resp.pools, symbols_match (pyUpper base) (pyUpper quote) p = true ∧
        direction_ok (pyUpper base) p pt.price) ∧
    (∀ (resp : ParserResponse) (base quote : String) (now : ℤ) (pt : ParsedPoint),
      pt ∈ parse_sushiswap_response resp base quote now →
      ∃ p ∈ resp.pools, symbols_match (pyUpper base) (pyUpper quote) p = true ∧
        direction_ok (pyUpper base) p pt.price) ∧
    (∀ (base quote : String) (now : ℤ) (d : PriceData) (pool : Pool)
      (rest : List Pool), pyUpper base = base →
      symbols_match (pyUpper base) (pyUpper quote) pool = true →
      fetch_uniswap_price_point (pool :: rest) base now = some d →
      direction_ok (pyUpper base) pool d.price) := by
  refine ⟨?_, ?_, ?_⟩
  · intro resp base quote now pt hpt
    rw [parse_uniswap_response] at hpt
    by_cases he : resp.hasErrors = true
    · simp [he] at hpt
    · rw [if_neg he] at hpt
      cases hv : uniswap_valid_pools (pyUpper base) (pyUpper quote) resp.pools with
      | error e => rw [hv] at hpt; simp at hpt
      | ok valid =>
        rw [hv] at hpt
        dsimp only at hpt
        cases hs : valid.mergeSort (fun a b => decide (pool_liq_val b ≤ pool_liq_val a)) with
        | nil => rw [hs] at hpt; simp at hpt
        | cons top tl =>
          rw [hs] at hpt
          simp only [List.mem_singleton] at hpt
          subst hpt
          have htop : top ∈ valid := by
            have hmem : top ∈ valid.mergeSort
                (fun a b => decide (pool_liq_val b ≤ pool_liq_val a)) := by
              rw [hs]; exact List.mem_cons_self _ _
            exact List.mem_mergeSort.mp hmem
          obtain ⟨hmem, hmatch, -⟩ :=
            uniswap_valid_pools_spec _ _ resp.pools valid hv top htop
          exact ⟨top, hmem, hmatch, select_direction_ok _ _ top hmatch⟩
  · intro resp base quote now pt hpt
    rw [parse_sushiswap_response] at hpt
    by_cases he : resp.hasErrors = true
    · simp [he] at hpt
    · rw [if_neg he] at hpt
      cases hv : sushiswap_valid_pairs (pyUpper base) (pyUpper quote) resp.pools with
      | nil => rw [hv] at hpt; simp at hpt
      | cons top tl =>
        rw [hv] at hpt
        dsimp only at hpt
        simp only [List.mem_singleton] at hpt
        subst hpt
        have htop : top ∈ sushiswap_valid_pairs (pyUpper base) (pyUpper quote)
            resp.pools := by
          rw [hv]; exact List.mem_cons_self _ _
        have hfil := List.mem_filter.mp htop
        have hmatch : symbols_match (pyUpper base) (pyUpper quote) top = true := by
          have := hfil.2
          simp only [Bool.and_eq_true] at this
          exact this.1.1
        exact ⟨top, hfil.1, hmatch, select_direction_ok _ _ top hmatch⟩
  · intro base quote now d pool rest hbase hmatch hf
    rw [fetch_uniswap_price_point] at hf
    rw [hbase] at hmatch ⊢
    cases hl : pool.liquidity with
    | invalid => rw [hl] at hf; cases hf
    | missing =>
      rw [hl] at hf
      obtain rfl : (⟨if (pyUpper pool.token0.symbol == base) = true
          then pool.token1Price else pool.token0Price, 0, now⟩ : PriceData) = d := by
        simpa using hf
      by_cases h0 : (pyUpper pool.token0.symbol == base) = true
      · exact Or.inl ⟨by simpa using h0, by simp [h0]⟩
      · refine Or.inr ⟨by simpa using h0, ?_, by simp [h0]⟩
        rw [symbols_match] at hmatch
        rcases Bool.or_eq_true_iff.mp hmatch with h | h
        · exact absurd (Bool.and_eq_true_iff.mp h).1 h0
        · simpa using (Bool.and_eq_true_iff.mp h).2
    | num q =>
      rw [hl] at hf
      obtain rfl : (⟨if (pyUpper pool.token0.symbol == base) = true
          then pool.token1Price else pool.token0Price, q, now⟩ : PriceData) = d := by
        simpa using hf
      by_cases h0 : (pyUpper pool.token0.symbol == base) = true
      · exact Or.inl ⟨by simpa using h0, by simp [h0]⟩
      · refine Or.inr ⟨by simpa using h0, ?_, by simp [h0]⟩
        rw [symbols_match] at hmatch
        rcases Bool.or_eq_true_iff.mp hmatch with h | h
        · exact absurd (Bool.and_eq_true_iff.mp h).1 h0
        · simpa using (Bool.and_eq_true_iff.mp h).2

/-- The pool of the C5 example: symbols `WETH`/`USDC`,
`token0Price = 3`, `token1Price = 5`, parseable liquidity 1. -/
def c5_pool : Pool := ⟨"p0", ⟨"WETH"⟩, ⟨"USDC"⟩, 3, 5, .num 1, .missing⟩

/-- A response containing just that pool. -/
def c5_resp : ParserResponse := ⟨false, [c5_pool]⟩

/-- C5 counterexample: with the configured base written in lower case
(`"weth"`), the price monitor's inline Uniswap fetcher compares the
uppercased remote symbol `"WETH"` against `"weth"` verbatim, misses
the match, and returns `token0Price` although `token0` is the base:
the produced price is 3, not the quote-per-base `token1Price = 5` the
claim requires, even though the pool's symbols match the configured
pair case-insensitively. -/
theorem C5_counterexample :
    symbols_match (pyUpper "weth") (pyUpper "USDC") c5_pool = true ∧
    pyUpper c5_pool.token0.symbol = pyUpper "weth" ∧
    ¬ ((fetch_uniswap_price_point [c5_pool] "weth" 9).map PriceData.price =
        some c5_pool.token1Price) := by
  refine ⟨by decide, by decide, by decide⟩

/-- C5 witness: the Uniswap parser, on the same pool and the same
lower-case configured base, resolves the direction correctly: the
emitted point's price is `token1Price`. -/
theorem C5_direction_resolution_witness :
    ∃ p ∈ c5_resp.pools, symbols_match (pyUpper "weth") (pyUpper "USDC") p = true ∧
      direction_ok (pyUpper "weth") p
        ({ pool_id := "p0", price := 5, liquidity := 1, base_token := "WETH",
            quote_token := "USDC", timestamp := 9, selected_from := 1,
            valid_pools := 1 } : ParsedPoint).price := by
  apply C5_direction_resolution.1 c5_resp "weth" "USDC" 9
  have hv : uniswap_valid_pools (pyUpper "weth") (pyUpper "USDC") c5_resp.pools =
      .ok [c5_pool] := by rfl
  rw [parse_uniswap_response, if_neg (by decide), hv]
  dsimp only
  rw [List.mergeSort_singleton]
  have hb : (pyUpper c5_pool.token0.symbol == pyUpper "weth") = true := by decide
  have hb' : pyUpper "WETH" = pyUpper "weth" := by decide
  simp [select_direction, hb, hb', c5_pool, c5_resp, pool_liq_val, uniswap_liquidity]

/-- The earliest element of a list attaining the maximal key — what
the head of a stable descending sort yields. -/
def first_max (key : Pool → ℚ) : List Pool → Option Pool
  | [] => none
  | a :: l =>
      match first_max key l with
      | none => some a
      | some b => if key a < key b then some b else some a

theorem first_max_mem (key : Pool → ℚ) :
    ∀ (l : List Pool) (b : Pool), first_max key l = some b → b ∈ l := by
  intro l
  induction l with
  | nil => intro b h; simp [first_max] at h
  | cons a l ih =>
    intro b h
    simp only [first_max] at h
    cases hf : first_max key l with
    | none =>
      rw [hf] at h
      dsimp only at h
      obtain rfl : a = b := by simpa using h
      exact List.mem_cons_self _ _
    | some c =>
      rw [hf] at h
      dsimp only at h
      by_cases hlt : key a < key c
      · rw [if_pos hlt] at h
        obtain rfl : c = b := by simpa using h
        exact List.mem_cons_of_mem _ (ih _ hf)
      · rw [if_neg hlt] at h
        obtain rfl : a = b := by simpa using h
        exact List.mem_cons_self _ _

theorem first_max_of_max (key : Pool → ℚ) (a : Pool) (l : List Pool)
    (h : ∀ x ∈ l, key x ≤ key a) : first_max key (a :: l) = some a := by
  simp only [first_max]
  cases hf : first_max key l with
  | none => rfl
  | some b =>
    dsimp only
    rw [if_neg (not_lt.mpr (h b (first_max_mem key l b hf)))]

theorem pool_desc_trans (key : Pool → ℚ) : ∀ (a b c : Pool),
    decide (key b ≤ key a) = true → decide (key c ≤ key b) = true →
    decide (key c ≤ key a) = true := by
  intro a b c h1 h2
  simp at h1 h2 ⊢
  linarith

theorem pool_desc_total (key : Pool → ℚ) : ∀ (a b : Pool),
    (decide (key b ≤ key a) || decide (key a ≤ key b)) = true := by
  intro a b
  simp
  exact le_total _ _

/-- The head of Python's stable descending sort is the earliest
element with maximal key. -/
theorem head_mergeSort_desc (key : Pool → ℚ) :
    ∀ l : List Pool,
      (l.mergeSort fun a b => decide (key b ≤ key a)).head? = first_max key l := by
  intro l
  induction l with
  | nil => simp [first_max]
  | cons a l ih =>
    obtain ⟨l₁, l₂, h₁, h₂, h₃⟩ :=
      List.mergeSort_cons (pool_desc_trans key) (pool_desc_total key) a l
    cases l₁ with
    | nil =>
      simp only [List.nil_append] at h₁ h₂
      have hsorted := List.sorted_mergeSort (pool_desc_trans key)
        (pool_desc_total key) (a :: l)
      rw [h₁] at hsorted
      have hmax : ∀ x ∈ l, key x ≤ key a := by
        intro x hx
        have hx2 : x ∈ l₂ := by
          rw [← h₂]
          exact List.mem_mergeSort.mpr hx
        have := List.rel_of_pairwise_cons hsorted hx2
        simpa using this
      rw [h₁, List.head?_cons, first_max_of_max key a l hmax]
    | cons c l₁' =>
      rw [h₁]
      simp only [List.cons_append, List.head?_cons]
      have hc : first_max key l = some c := by
        rw [← ih, h₂]
        simp
      have hlt : key a < key c := by
        have := h₃ c (List.mem_cons_self _ _)
        simp at this
        linarith
      simp only [first_max, hc, if_pos hlt]

theorem uniswap_valid_pools_empty (bu qu : String) :
    ∀ l : List Pool, (∀ p ∈ l, symbols_match bu qu p = true →
        ∀ q, uniswap_liquidity p = some q → q ≤ 0) →
      uniswap_valid_pools bu qu l = .error () ∨
        uniswap_valid_pools bu qu l = .ok [] := by
  intro l
  induction l with
  | nil => intro h; exact Or.inr rfl
  | cons p rest ih =>
    intro h
    have hrest := ih fun x hx => h x (List.mem_cons_of_mem _ hx)
    simp only [uniswap_valid_pools]
    by_cases hm : symbols_match bu qu p = true
    · rw [if_pos hm]
      cases hl : uniswap_liquidity p with
      | none => exact Or.inl rfl
      | some q =>
        dsimp only
        have hq : q ≤ 0 := h p (List.mem_cons_self _ _) hm q hl
        rw [if_neg (not_lt.mpr hq)]
        exact hrest
    · rw [if_neg hm]
      exact hrest

theorem parse_uniswap_empty (resp : ParserResponse) (base quote : String) (now : ℤ)
    (h : ∀ p ∈ resp.pools, symbols_match (pyUpper base) (pyUpper quote) p = true →
      ∀ q, uniswap_liquidity p = some q → q ≤ 0) :
    parse_uniswap_response resp base quote now = [] := by
  rw [parse_uniswap_response]
  by_cases he : resp.hasErrors = true
  · rw [if_pos he]
  · rw [if_neg he]
    rcases uniswap_valid_pools_empty (pyUpper base) (pyUpper quote) resp.pools h with
      hv | hv
    · rw [hv]
    · rw [hv]
      dsimp only
      rw [List.mergeSort_nil]

theorem parse_uniswap_selects (resp : ParserResponse) (base quote : String)
    (now : ℤ) (valid : List Pool) (top : Pool)
    (he : resp.hasErrors = false)
    (hv : uniswap_valid_pools (pyUpper base) (pyUpper quote) resp.pools = .ok valid)
    (htop : first_max pool_liq_val valid = some top) :
    parse_uniswap_response resp base quote now =
      [{ pool_id := top.id, price := (select_direction (pyUpper base) top).1,
         liquidity := pool_liq_val top,
         base_token := (select_direction (pyUpper base) top).2.1,
         quote_token := (select_direction (pyUpper base) top).2.2,
         timestamp := now, selected_from := resp.pools.length,
         valid_pools := valid.length }] := by
  rw [parse_uniswap_response, if_neg (by simp [he]), hv]
  dsimp only
  have hhead := head_mergeSort_desc pool_liq_val valid
  rw [htop] at hhead
  cases hs : valid.mergeSort (fun a b => decide (pool_liq_val b ≤ pool_liq_val a)) with
  | nil => rw [hs] at hhead; simp at hhead
  | cons t tl =>
    rw [hs] at hhead
    obtain rfl : t = top := by simpa using hhead
    rfl

theorem parse_sushiswap_first (resp : ParserResponse) (base quote : String)
    (now : ℤ) (top : Pool) (tl : List Pool)
    (he : resp.hasErrors = false)
    (hv : sushiswap_valid_pairs (pyUpper base) (pyUpper quote) resp.pools = top :: tl) :
    parse_sushiswap_response resp base quote now =
      [{ pool_id := top.id, price := (select_direction (pyUpper base) top).1,
         liquidity := sushi_liquidity top,
         base_token := (select_direction (pyUpper base) top).2.1,
         quote_token := (select_direction (pyUpper base) top).2.2,
         timestamp := now, selected_from := resp.pools.length,
         valid_pools := tl.length + 1 }] := by
  rw [parse_sushiswap_response, if_neg (by simp [he]), hv]
  simp [hv]

/-- First SushiSwap pair of the C6 example: matches `WETH/USDC`,
positive prices, `reserveUSD = 0`. -/
def c6_pair1 : Pool := ⟨"p1", ⟨"WETH"⟩, ⟨"USDC"⟩, 1, 1, .missing, .num 0⟩

/-- Second SushiSwap pair: same tokens, `reserveUSD = 100` — the
unique matching pool with maximal (and positive) liquidity. -/
def c6_pair2 : Pool := ⟨"p2", ⟨"WETH"⟩, ⟨"USDC"⟩, 1, 1, .missing, .num 100⟩

/-- Response listing the zero-liquidity pair first. -/
def c6_resp : ParserResponse := ⟨false, [c6_pair1, c6_pair2]⟩

/-- C6 counterexample: of the two matching SushiSwap pairs, exactly
one (`p2`) has the maximal liquidity 100 > 0, so the claim requires
the adapter to return `p2`'s price point; the SushiSwap parser instead
returns the first pair in response order (`p1`, liquidity 0). -/
theorem C6_counterexample :
    sushi_liquidity c6_pair1 = 0 ∧ sushi_liquidity c6_pair2 = 100 ∧
    symbols_match (pyUpper "WETH") (pyUpper "USDC") c6_pair1 = true ∧
    symbols_match (pyUpper "WETH") (pyUpper "USDC") c6_pair2 = true ∧
    (parse_sushiswap_response c6_resp "WETH" "USDC" 4).map ParsedPoint.pool_id
      = ["p1"] ∧
    ¬ ((parse_sushiswap_response c6_resp "WETH" "USDC" 4).map ParsedPoint.pool_id
      = ["p2"]) := by
  refine ⟨by decide, by decide, by decide, by decide, by decide, by decide⟩

/-- C6 (amended): the Uniswap parser behaves as claimed — it considers
only exactly-matching pools, returns absence when every matching pool
has zero or invalid liquidity (or none matches), and otherwise returns
the earliest matching pool with maximal liquidity (so a unique maximum
wins, and liquidity ties are broken by remote response order).  The
SushiSwap parser, by contrast, ignores liquidity entirely: it returns
the earliest pair in response order whose symbols match and whose two
prices are both positive — even when its liquidity is zero and another
matching pair has larger liquidity — and absence only when no such
pair exists. -/
theorem C6_liquidity_selection :
    (∀ (resp : ParserResponse) (base quote : String) (now : ℤ),
      (∀ p ∈ resp.pools, symbols_match (pyUpper base) (pyUpper quote) p = true →
        ∀ q, uniswap_liquidity p = some q → q ≤ 0) →
      parse_uniswap_response resp base quote now = []) ∧
    (∀ (resp : ParserResponse) (base quote : String) (now : ℤ)
      (valid : List Pool) (top : Pool), resp.hasErrors = false →
      uniswap_valid_pools (pyUpper base) (pyUpper quote) resp.pools = .ok valid →
      first_max pool_liq_val valid = some top →
      parse_uniswap_response resp base quote now =
        [{ pool_id := top.id, price := (select_direction (pyUpper base) top).1,
           liquidity := pool_liq_val top,
           base_token := (select_direction (pyUpper base) top).2.1,
           quote_token := (select_direction (pyUpper base) top).2.2,
           timestamp := now, selected_from := resp.pools.length,
           valid_pools := valid.length }]) ∧
    (∀ (resp : ParserResponse) (base quote : String) (now : ℤ),
      sushiswap_valid_pairs (pyUpper base) (pyUpper quote) resp.pools = [] →
      parse_sushiswap_response resp base quote now = []) ∧
    (∀ (resp : ParserResponse) (base quote : String) (now : ℤ)
      (top : Pool) (tl : List Pool), resp.hasErrors = false →
      sushiswap_valid_pairs (pyUpper base) (pyUpper quote) resp.pools = top :: tl →
      parse_sushiswap_response resp base quote now =
        [{ pool_id := top.id, price := (select_direction (pyUpper base) top).1,
           liquidity := sushi_liquidity top,
           base_token := (select_direction (pyUpper base) top).2.1,
           quote_token := (select_direction (pyUpper base) top).2.2,
           timestamp := now, selected_from := resp.pools.length,
           valid_pools := tl.length + 1 }]) := by
  refine ⟨parse_uniswap_empty, fun resp base quote now valid top he hv htop =>
    parse_uniswap_selects resp base quote now valid top he hv htop,
    ?_, fun resp base quote now top tl he hv =>
      parse_sushiswap_first resp base quote now top tl he hv⟩
  intro resp base quote now hv
  rw [parse_sushiswap_response]
  by_cases he : resp.hasErrors = true
  · rw [if_pos he]
  · rw [if_neg he, hv]

/-- C6 witness: on the two-pair example, the SushiSwap parser returns
the response-order first pair `p1` (liquidity 0); on a one-pool
response, the Uniswap parser returns that pool (the unique liquidity
maximum). -/
theorem C6_liquidity_selection_witness :
    (parse_sushiswap_response c6_resp "WETH" "USDC" 4).map ParsedPoint.pool_id
      = ["p1"] ∧
    (parse_uniswap_response c5_resp "weth" "USDC" 9).map ParsedPoint.pool_id
      = ["p0"] := by
  constructor
  · rw [C6_liquidity_selection.2.2.2 c6_resp "WETH" "USDC" 4 c6_pair1 [c6_pair2]
      (by decide) (by decide)]
    decide
  · rw [C6_liquidity_selection.2.1 c5_resp "weth" "USDC" 9 [c5_pool] c5_pool
      (by decide) (by rfl) (by decide)]
    decide

/-- The request payload built once by `execute` (client.py lines
66-68): the query plus optional variables (`if variables:` — an
absent or falsy dict adds no key). -/
structure Payload where
  query : String
  vars : Option String
deriving DecidableEq, Repr

/-- A `{data, errors}` envelope.  `dat` abstracts the JSON payload
under `"data"` (`none` = JSON null); `errors` the message list
(`[]` = no `"errors"` key). -/
structure Envelope where
  dat : Option String
  errors : List String
deriving DecidableEq, Repr

/-- What the transport yields for one attempt: an HTTP response with
status code and parsed body, or an exception (timeout or
connection-level failure) carrying its message. -/
inductive AttemptOutcome
  | http (status : ℕ) (body : Envelope)
  | exc (msg : String)
deriving DecidableEq, Repr

/-- `{"data": None, "errors": [{"message": f"HTTP error: {status}"}]}`
(line 89). -/
def http_error_envelope (status : ℕ) : Envelope :=
  ⟨none, ["HTTP error: " ++ toString status]⟩

/-- `{"data": None, "errors": [{"message": f"All requests failed:
{last_error}"}]}` (line 117). -/
def all_failed_envelope (msg : String) : Envelope :=
  ⟨none, ["All requests failed: " ++ msg]⟩

/-- The observable behaviour of one `execute` call: the returned
envelope, the payload sent on each attempt, and the sleeps performed
between attempts. -/
structure ExecResult where
  envelope : Envelope
  requests : List Payload
  sleeps : List ℚ
deriving DecidableEq, Repr

/-- The `while retry_count <= max_retries` loop of
`GraphQLClient.execute` (lines 82-117): `attemptsLeft` is
`max_retries + 1 - retry_count` (the loop guard); a non-200 response
returns an error envelope at once, a 200 response returns its body
as-is, and an exception stores `last_error`, increments the counter
and — if another attempt remains — sleeps `retry_delay * retry_count`
before retrying.  When the guard fails the last error is wrapped in an
envelope and returned. -/
def execute_loop (retryDelay : ℚ) (maxRetries : ℕ) (payload : Payload)
    (outcomes : ℕ → AttemptOutcome) :
    (attemptsLeft retryCount : ℕ) → (lastError : String) →
    List Payload → List ℚ → ExecResult
  | 0, _, lastError, requests, sleeps =>
      ⟨all_failed_envelope lastError, requests, sleeps⟩
  | left + 1, retryCount, _, requests, sleeps =>
      match outcomes retryCount with
      | .http status body =>
          if status ≠ 200 then
            ⟨http_error_envelope status, requests ++ [payload], sleeps⟩
          else
            ⟨body, requests ++ [payload], sleeps⟩
      | .exc msg =>
          execute_loop retryDelay maxRetries payload outcomes left (retryCount + 1)
            msg (requests ++ [payload])
            (if retryCount + 1 ≤ maxRetries
             then sleeps ++ [retryDelay * ((retryCount : ℚ) + 1)] else sleeps)

/-- `GraphQLClient.execute` (lines 51-117): builds the payload once
and runs the retry loop starting at `retry_count = 0`. -/
def execute (maxRetries : ℕ) (retryDelay : ℚ) (query : String)
    (vars : Option String) (outcomes : ℕ → AttemptOutcome) : ExecResult :=
  execute_loop retryDelay maxRetries ⟨query, vars⟩ outcomes (maxRetries + 1) 0 "" [] []



theorem execute_loop_requests_payload (retryDelay : ℚ) (maxRetries : ℕ)
    (payload : Payload) (outcomes : ℕ → AttemptOutcome) :
    ∀ (left rc : ℕ) (le : String) (reqs : List Payload) (sl : List ℚ),
      (∀ p ∈ reqs, p = payload) →
      ∀ p ∈ (execute_loop retryDelay maxRetries payload outcomes left rc le
        reqs sl).requests, p = payload := by
  intro left
  induction left with
  | zero => intro rc le reqs sl hreqs p hp; exact hreqs p hp
  | succ left ih =>
    intro rc le reqs sl hreqs p hp
    rw [execute_loop] at hp
    have hreqs' : ∀ p ∈ reqs ++ [payload], p = payload := by
      intro q hq
      rcases List.mem_append.mp hq with h | h
      · exact hreqs q h
      · simpa using h
    cases ho : outcomes rc with
    | http status body =>
      rw [ho] at hp
      dsimp only at hp
      by_cases hs : status ≠ 200
      · rw [if_pos hs] at hp
        exact hreqs' p hp
      · rw [if_neg hs] at hp
        exact hreqs' p hp
    | exc msg =>
      rw [ho] at hp
      dsimp only at hp
      exact ih _ _ _ _ hreqs' p hp

theorem execute_loop_requests_length (retryDelay : ℚ) (maxRetries : ℕ)
    (payload : Payload) (outcomes : ℕ → AttemptOutcome) :
    ∀ (left rc : ℕ) (le : String) (reqs : List Payload) (sl : List ℚ),
      (execute_loop retryDelay maxRetries payload outcomes left rc le
        reqs sl).requests.length ≤ reqs.length + left := by
  intro left
  induction left with
  | zero => intro rc le reqs sl; simp [execute_loop]
  | succ left ih =>
    intro rc le reqs sl
    rw [execute_loop]
    cases ho : outcomes rc with
    | http status body =>
      dsimp only
      by_cases hs : status ≠ 200
      · rw [if_pos hs]; simp
      · rw [if_neg hs]; simp
    | exc msg =>
      dsimp only
      calc (execute_loop retryDelay maxRetries payload outcomes left (rc + 1) msg
            (reqs ++ [payload]) _).requests.length
          ≤ (reqs ++ [payload]).length + left := ih _ _ _ _
        _ ≤ reqs.length + (left + 1) := by simp; omega

theorem sleeps_shift (d : ℚ) (maxRetries rc j : ℕ) :
    (List.range (j + 1)).filterMap (fun i =>
        if rc + i + 1 ≤ maxRetries
        then some (d * (((rc + i : ℕ) : ℚ) + 1)) else none) =
      (if rc + 1 ≤ maxRetries then [d * ((rc : ℚ) + 1)] else []) ++
      (List.range j).filterMap (fun i =>
        if rc + 1 + i + 1 ≤ maxRetries
        then some (d * (((rc + 1 + i : ℕ) : ℚ) + 1)) else none) := by
  rw [List.range_succ_eq_map, List.filterMap_cons, List.filterMap_map]
  have hfun : (fun i =>
      if rc + i + 1 ≤ maxRetries
      then some (d * (((rc + i : ℕ) : ℚ) + 1)) else none) ∘ Nat.succ =
      fun i => if rc + 1 + i + 1 ≤ maxRetries
        then some (d * (((rc + 1 + i : ℕ) : ℚ) + 1)) else none := by
    funext i
    have h : rc + Nat.succ i = rc + 1 + i := by omega
    simp only [Function.comp, h]
  rw [hfun]
  by_cases hc : rc + 1 ≤ maxRetries
  · rw [if_pos (by omega : rc + 0 + 1 ≤ maxRetries), if_pos hc]
    rfl
  · rw [if_neg (by omega : ¬ rc + 0 + 1 ≤ maxRetries), if_neg hc]
    rfl

theorem execute_loop_http_stop (retryDelay : ℚ) (maxRetries : ℕ)
    (payload : Payload) (outcomes : ℕ → AttemptOutcome) (s : ℕ) (b : Envelope) :
    ∀ (j left rc : ℕ) (le : String) (reqs : List Payload) (sl : List ℚ),
      j < left →
      (∀ i < j, ∃ m, outcomes (rc + i) = .exc m) →
      outcomes (rc + j) = .http s b →
      execute_loop retryDelay maxRetries payload outcomes left rc le reqs sl =
        ⟨if s ≠ 200 then http_error_envelope s else b,
          reqs ++ List.replicate (j + 1) payload,
          sl ++ (List.range j).filterMap fun i =>
            if rc + i + 1 ≤ maxRetries
            then some (retryDelay * (((rc + i : ℕ) : ℚ) + 1)) else none⟩ := by
  intro j
  induction j with
  | zero =>
    intro left rc le reqs sl hlt hexc hh
    match left, hlt with
    | left + 1, _ =>
      rw [execute_loop]
      rw [show rc + 0 = rc from rfl] at hh
      rw [hh]
      dsimp only
      by_cases hs : s ≠ 200
      · rw [if_pos hs, if_pos hs]
        simp [List.replicate]
      · rw [if_neg hs, if_neg hs]
        simp [List.replicate]
  | succ j ih =>
    intro left rc le reqs sl hlt hexc hh
    match left, hlt with
    | left + 1, hlt =>
      rw [execute_loop]
      obtain ⟨m, hm⟩ := hexc 0 (Nat.succ_pos j)
      rw [show rc + 0 = rc from rfl] at hm
      rw [hm]
      dsimp only
      have hshift : ∀ i < j, ∃ m', outcomes (rc + 1 + i) = .exc m' := by
        intro i hi
        obtain ⟨m', hm'⟩ := hexc (i + 1) (Nat.succ_lt_succ hi)
        refine ⟨m', ?_⟩
        rw [← hm']
        congr 1
        omega
      have hh' : outcomes (rc + 1 + j) = .http s b := by
        rw [← hh]
        congr 1
        omega
      rw [ih left (rc + 1) m (reqs ++ [payload]) _ (Nat.lt_of_succ_lt_succ hlt)
        hshift hh']
      simp only [ExecResult.mk.injEq]
      refine ⟨trivial, ?_, ?_⟩
      · simp [List.replicate_succ, List.append_assoc]
      · rw [sleeps_shift retryDelay maxRetries rc j]
        by_cases hc : rc + 1 ≤ maxRetries
        · rw [if_pos hc, if_pos hc, List.append_assoc]
        · rw [if_neg hc, if_neg hc, List.nil_append]


theorem execute_loop_all_exc (retryDelay : ℚ) (maxRetries : ℕ)
    (payload : Payload) (outcomes : ℕ → AttemptOutcome) (msgs : ℕ → String) :
    ∀ (left rc : ℕ) (le : String) (reqs : List Payload) (sl : List ℚ),
      (∀ i < left, outcomes (rc + i) = .exc (msgs (rc + i))) →
      execute_loop retryDelay maxRetries payload outcomes left rc le reqs sl =
        ⟨all_failed_envelope (if left = 0 then le else msgs (rc + left - 1)),
          reqs ++ List.replicate left payload,
          sl ++ (List.range left).filterMap fun i =>
            if rc + i + 1 ≤ maxRetries
            then some (retryDelay * (((rc + i : ℕ) : ℚ) + 1)) else none⟩ := by
  intro left
  induction left with
  | zero =>
    intro rc le reqs sl hexc
    simp [execute_loop]
  | succ left ih =>
    intro rc le reqs sl hexc
    rw [execute_loop]
    have hm := hexc 0 (Nat.succ_pos left)
    rw [show rc + 0 = rc from rfl] at hm
    rw [hm]
    dsimp only
    have hshift : ∀ i < left, outcomes (rc + 1 + i) = .exc (msgs (rc + 1 + i)) := by
      intro i hi
      have h := hexc (i + 1) (Nat.succ_lt_succ hi)
      rw [show rc + (i + 1) = rc + 1 + i from by omega] at h
      exact h
    rw [ih (rc + 1) (msgs rc) (reqs ++ [payload]) _ hshift]
    simp only [ExecResult.mk.injEq]
    refine ⟨?_, ?_, ?_⟩
    · by_cases h0 : left = 0
      · subst h0
        simp
      · rw [if_neg h0, if_neg (Nat.succ_ne_zero left)]
        congr 2
        omega
    · simp [List.replicate_succ, List.append_assoc]
    · rw [sleeps_shift retryDelay maxRetries rc left]
      by_cases hc : rc + 1 ≤ maxRetries
      · rw [if_pos hc, if_pos hc, List.append_assoc]
      · rw [if_neg hc, if_neg hc, List.nil_append]

theorem filterMap_range_all (d : ℚ) (maxRetries k : ℕ) (h : k ≤ maxRetries) :
    ((List.range k).filterMap fun i =>
      if i + 1 ≤ maxRetries then some (d * ((i : ℚ) + 1)) else none) =
    (List.range k).map (fun (n : ℕ) => d * ((n : ℚ) + 1)) := by
  have hall : ∀ i ∈ List.range k, i + 1 ≤ maxRetries := by
    intro i hi
    have := List.mem_range.mp hi
    omega
  revert hall
  generalize List.range k = l
  intro hall
  induction l with
  | nil => rfl
  | cons a l ih =>
    rw [List.filterMap_cons, if_pos (hall a (List.mem_cons_self _ _)), List.map_cons]
    dsimp only
    rw [ih fun i hi => hall i (List.mem_cons_of_mem _ hi)]




/-- C7: `execute` always returns an envelope and never raises to the
caller: every attempt resends the identical payload built once from
the query and variables, and at most `max_retries + 1` attempts are
made; a non-2xx HTTP response is turned into an error envelope and
returned immediately with no further attempt; a 200 response's body is
returned as-is; and when every attempt fails with a timeout or
connection exception, the `n`-th retry is preceded by a sleep of
`retry_delay * n` (linearly increasing) and the returned envelope's
errors record the last failure. -/
theorem C7_client_retry :
    (∀ (maxRetries : ℕ) (retryDelay : ℚ) (query : String) (vars : Option String)
      (outcomes : ℕ → AttemptOutcome),
      (∀ p ∈ (execute maxRetries retryDelay query vars outcomes).requests,
        p = ⟨query, vars⟩) ∧
      (execute maxRetries retryDelay query vars outcomes).requests.length ≤
        maxRetries + 1) ∧
    (∀ (maxRetries : ℕ) (retryDelay : ℚ) (query : String) (vars : Option String)
      (outcomes : ℕ → AttemptOutcome) (k s : ℕ) (b : Envelope),
      k ≤ maxRetries → (∀ i < k, ∃ m, outcomes i = .exc m) →
      outcomes k = .http s b → s ≠ 200 →
      execute maxRetries retryDelay query vars outcomes =
        ⟨http_error_envelope s, List.replicate (k + 1) ⟨query, vars⟩,
          (List.range k).map (fun (n : ℕ) => retryDelay * ((n : ℚ) + 1))⟩) ∧
    (∀ (maxRetries : ℕ) (retryDelay : ℚ) (query : String) (vars : Option String)
      (outcomes : ℕ → AttemptOutcome) (k : ℕ) (b : Envelope),
      k ≤ maxRetries → (∀ i < k, ∃ m, outcomes i = .exc m) →
      outcomes k = .http 200 b →
      execute maxRetries retryDelay query vars outcomes =
        ⟨b, List.replicate (k + 1) ⟨query, vars⟩,
          (List.range k).map (fun (n : ℕ) => retryDelay * ((n : ℚ) + 1))⟩) ∧
    (∀ (maxRetries : ℕ) (retryDelay : ℚ) (query : String) (vars : Option String)
      (outcomes : ℕ → AttemptOutcome) (msgs : ℕ → String),
      (∀ i ≤ maxRetries, outcomes i = .exc (msgs i)) →
      execute maxRetries retryDelay query vars outcomes =
        ⟨all_failed_envelope (msgs maxRetries),
          List.replicate (maxRetries + 1) ⟨query, vars⟩,
          (List.range maxRetries).map
            (fun (n : ℕ) => retryDelay * ((n : ℚ) + 1))⟩) := by
  refine ⟨?_, ?_, ?_, ?_⟩
  · intro maxRetries retryDelay query vars outcomes
    constructor
    · intro p hp
      exact execute_loop_requests_payload retryDelay maxRetries ⟨query, vars⟩
        outcomes (maxRetries + 1) 0 "" [] [] (by simp) p hp
    · have := execute_loop_requests_length retryDelay maxRetries ⟨query, vars⟩
        outcomes (maxRetries + 1) 0 "" [] []
      simpa using this
  · intro maxRetries retryDelay query vars outcomes k s b hk hexc hh hs
    rw [execute, execute_loop_http_stop retryDelay maxRetries ⟨query, vars⟩
      outcomes s b k (maxRetries + 1) 0 "" [] [] (by omega)
      (fun i hi => by rw [Nat.zero_add]; exact hexc i hi)
      (by rw [Nat.zero_add]; exact hh)]
    rw [if_pos hs]
    simp only [List.nil_append, Nat.zero_add]
    rw [filterMap_range_all retryDelay maxRetries k hk]
  · intro maxRetries retryDelay query vars outcomes k b hk hexc hh
    rw [execute, execute_loop_http_stop retryDelay maxRetries ⟨query, vars⟩
      outcomes 200 b k (maxRetries + 1) 0 "" [] [] (by omega)
      (fun i hi => by rw [Nat.zero_add]; exact hexc i hi)
      (by rw [Nat.zero_add]; exact hh)]
    rw [if_neg (by simp)]
    simp only [List.nil_append, Nat.zero_add]
    rw [filterMap_range_all retryDelay maxRetries k hk]
  · intro maxRetries retryDelay query vars outcomes msgs hexc
    rw [execute, execute_loop_all_exc retryDelay maxRetries ⟨query, vars⟩
      outcomes msgs (maxRetries + 1) 0 "" [] []
      (fun i hi => by rw [Nat.zero_add]; exact hexc i (by omega))]
    simp only [List.nil_append, Nat.zero_add, ExecResult.mk.injEq]
    refine ⟨?_, trivial, ?_⟩
    · rw [if_neg (Nat.succ_ne_zero _)]
      congr 1
    · rw [List.range_succ, List.filterMap_append,
        filterMap_range_all retryDelay maxRetries maxRetries le_rfl]
      simp

/-- C7 witness: a 500 response on the first attempt is returned as an
error envelope at once — one request sent, no sleeps, no retry. -/
theorem C7_client_retry_witness :
    execute 3 2 "query ping" none (fun _ => .http 500 ⟨some "x", []⟩) =
      ⟨http_error_envelope 500, List.replicate 1 ⟨"query ping", none⟩,
        (List.range 0).map (fun (n : ℕ) => (2:ℚ) * ((n : ℚ) + 1))⟩ :=
  C7_client_retry.2.1 3 2 "query ping" none _ 0 500 ⟨some "x", []⟩
    (by omega) (fun i hi => absurd hi (Nat.not_lt_zero i)) rfl (by decide)

end DexBot
